import Mathlib

/-!
# Transit-map graph nodes and the topo driver

A shallow embedding of `src/transitmap/graph/Node.cpp` (node adjacency, node
fronts, inner geometries, route-connection exceptions, the node destructor)
and of the phase sequence of `src/topo/TopoMain.cpp`.

Conventions of the embedding

* A pointer is the identity of the object it points to.  A `Route*` and a
  `Node*` are natural numbers (addresses).  An `Edge*` is the value `Edge`:
  the address `id` together with the two endpoint addresses read by
  `getFrom()` and `getTo()`, which `Node.cpp` never changes.
* A `std::set<T>` is a list without duplicates; `insert` and `erase` by key
  are `List.insert` and `List.erase`.  The iteration order of a set of
  pointers is address order, which is left arbitrary here: every statement
  holds for each order of the lists.
* A `std::map<K, V>` is an association list; `find` is the first entry with
  the key, `operator[]` creates the default value on a missing key.
* Control that reaches the end of a non-void function without `return`,
  a dereferenced `end()` iterator or null pointer, and a call on a destroyed
  node yield `none`.
* The `double` variables of the driver are IEEE 754 binary64 values: the sum
  and the product are the exact results rounded to nearest, ties to even,
  with overflow to an infinity.  The coordinates of the control points of the
  inner Bézier curve, on which no branch depends, are exact rationals.
-/

namespace Loom

/-! ## Data model -/

/-- The identity of a `Route` object. -/
abbrev Route := Nat

/-- An `Edge` object as seen through an `Edge*`: its address and the two
node addresses returned by `getFrom()` and `getTo()`. -/
structure Edge where
  id : Nat
  getFrom : Nat
  getTo : Nat
  deriving DecidableEq, Repr

/-- A point of the plane. -/
structure Point where
  x : ℚ
  y : ℚ
  deriving DecidableEq

/-- An ordering of the trips of an edge: `std::vector<size_t>`. -/
abbrev Ordering := List Nat

/-- The type `graph::Configuration`: a map from edges to orderings. -/
abbrev Configuration := List (Edge × Ordering)

/-- The fields of `NodeFront` read by `Node.cpp`: the node `n` the front
belongs to and the edge it faces. -/
structure NodeFront where
  n : Nat
  edge : Edge
  deriving DecidableEq, Repr

/-- The inner map of `_routeConnExceptions`: edge to set of edges. -/
abbrev EdgeExceptions := List (Edge × List Edge)

/-- The type of `_routeConnExceptions`: route to edge to set of edges. -/
abbrev RouteConnExceptions := List (Route × EdgeExceptions)

/-- The members of `Node` used by the embedded methods. -/
structure Node where
  adjListOut : List Edge
  adjListIn : List Edge
  mainDirs : List NodeFront
  routeConnExceptions : RouteConnExceptions

/-- A node right after its constructor ran: every container is empty. -/
def Node.fresh : Node :=
  { adjListOut := [], adjListIn := [], mainDirs := [], routeConnExceptions := [] }

/-! ## `std::map` -/

/-- The method `std::map::find`: the value stored under `k`, `none` for `end()`. -/
def mapFind {κ ν : Type} [DecidableEq κ] (k : κ) : List (κ × ν) → Option ν
  | [] => none
  | (k', v) :: m => if k' = k then some v else mapFind k m

/-- The effect of `m[k] = f (m[k])`: `operator[]` creates the entry with the
default value `dflt` when `k` is missing, and the entry is then replaced. -/
def mapModify {κ ν : Type} [DecidableEq κ] (dflt : ν) (f : ν → ν) (k : κ) :
    List (κ × ν) → List (κ × ν)
  | [] => [(k, f dflt)]
  | (k', v) :: m => if k' = k then (k', f v) :: m else (k', v) :: mapModify dflt f k m

/-! ## Route-connection exceptions -/

/-- Embedding of `Node::addRouteConnException`:
`_routeConnExceptions[r][edgeA].insert(edgeB)` followed by
`_routeConnExceptions[r][edgeB].insert(edgeA)`. -/
def Node.addRouteConnException (n : Node) (r : Route) (edgeA edgeB : Edge) : Node :=
  let m1 := mapModify [] (mapModify [] (List.insert edgeB) edgeA) r n.routeConnExceptions
  let m2 := mapModify [] (mapModify [] (List.insert edgeA) edgeB) r m1
  { n with routeConnExceptions := m2 }

/-- Embedding of `Node::connOccurs`. -/
def Node.connOccurs (n : Node) (r : Route) (edgeA edgeB : Edge) : Bool :=
  match mapFind r n.routeConnExceptions with
  | none => true
  | some i =>
    match mapFind edgeA i with
    | none => true
    | some ii => decide (edgeB ∉ ii)

/-- Edge `b` is in the exception set stored under `(r, a)`. -/
def Node.excStored (n : Node) (r : Route) (a b : Edge) : Prop :=
  ∃ i ii, mapFind r n.routeConnExceptions = some i ∧ mapFind a i = some ii ∧ b ∈ ii

/-- One call of `addRouteConnException`: route, first edge, second edge. -/
abbrev ExcCall := Route × Edge × Edge

/-- The node after a sequence of `addRouteConnException` calls, first call
first. -/
def Node.addRouteConnExceptions (n : Node) (calls : List ExcCall) : Node :=
  calls.foldl (fun nd c => nd.addRouteConnException c.1 c.2.1 c.2.2) n

/-! ## Adjacency and node fronts -/

/-- Embedding of `Node::addEdge`; `self` is the address of the node
(`this`). -/
def Node.addEdge (self : Nat) (n : Node) (e : Edge) : Node :=
  let n1 := if e.getFrom = self then { n with adjListOut := n.adjListOut.insert e } else n
  if e.getTo = self then { n1 with adjListIn := n1.adjListIn.insert e } else n1

/-- The loop of `Node::removeEdge` over `_mainDirs`: at index `i`, a front
of edge `e` is erased, and `i` is incremented in either case.  Every
iteration increments `i` and the vector never grows, so `fuel` equal to the
length of the vector at the start covers the whole loop. -/
def Node.removeEdgeLoop (e : Edge) : Nat → Nat → List NodeFront → List NodeFront
  | 0, _, fs => fs
  | fuel + 1, i, fs =>
    if h : i < fs.length then
      if (fs.get ⟨i, h⟩).edge = e then Node.removeEdgeLoop e fuel (i + 1) (fs.eraseIdx i)
      else Node.removeEdgeLoop e fuel (i + 1) fs
    else fs

/-- Embedding of `Node::removeEdge`; `self` is the address of the node.  The
exception map is left as it is (the source has a TODO there). -/
def Node.removeEdge (self : Nat) (n : Node) (e : Edge) : Node :=
  let n1 := if e.getFrom = self then { n with adjListOut := n.adjListOut.erase e } else n
  let n2 := if e.getTo = self then { n1 with adjListIn := n1.adjListIn.erase e } else n1
  { n2 with mainDirs := Node.removeEdgeLoop e n2.mainDirs.length 0 n2.mainDirs }

/-- Embedding of `Node::addMainDir`. -/
def Node.addMainDir (n : Node) (f : NodeFront) : Node :=
  { n with mainDirs := n.mainDirs ++ [f] }

/-- Embedding of `Node::getNodeFrontFor`: the first front of edge `e`, `none`
for the null pointer. -/
def Node.getNodeFrontFor (n : Node) (e : Edge) : Option NodeFront :=
  n.mainDirs.find? (fun nf => decide (nf.edge = e))

/-- Embedding of `Node::getEdge`: the first out-edge whose `getTo()` is
`other`, else the first in-edge whose `getFrom()` is `other`, else control
reaches the end of the function and no value is returned. -/
def Node.getEdge (n : Node) (other : Nat) : Option Edge :=
  match n.adjListOut.find? (fun eP => decide (eP.getTo = other)) with
  | some eP => some eP
  | none =>
    match n.adjListIn.find? (fun eP => decide (eP.getFrom = other)) with
    | some eP => some eP
    | none => none

/-- Functions called by `NodeFront::getTripOccPosUnder` that are taken as
given: `Edge::getTripsForRouteUnder` (its code is in another file; the result
is the pair of the found flag and the position) and `NodeFront::getTripPos`
(a floating-point interpolation on the geometry of the front). -/
structure FrontEnv where
  getTripsForRouteUnder : Edge → Route → Ordering → Bool × Nat
  getTripPos : NodeFront → Edge → Nat → Bool → Point

/-- Embedding of `NodeFront::getTripOccPosUnder`.  The pointers `e` and
`order` may be null (`Node::getAreaScore` passes `0, 0`).  When `to.first` is
false control reaches the end of the function and no value is returned. -/
def NodeFront.getTripOccPosUnder (env : FrontEnv) (nf : NodeFront) (r : Route)
    (c : Configuration) (e : Option Edge) (order : Option Ordering) : Option Point :=
  let found : Option (Bool × Nat) :=
    if some nf.edge = e then
      order.map (fun o => env.getTripsForRouteUnder nf.edge r o)
    else
      (mapFind nf.edge c).map (fun o => env.getTripsForRouteUnder nf.edge r o)
  match found with
  | none => none
  | some to_ =>
    if to_.1 then some (env.getTripPos nf nf.edge to_.2 (decide (nf.n = nf.edge.getTo)))
    else none

/-! ## The heap of nodes and the node destructor -/

/-- The node objects of a graph: the addresses of the nodes that are alive,
the contents of memory at each address, and the edges on which `delete` was
called, in the order of the calls. -/
structure Heap where
  live : List Nat
  mem : Nat → Node
  deleted : List Edge

/-- Write the node object at address `a`. -/
def Heap.store (h : Heap) (a : Nat) (nd : Node) : Heap :=
  { h with mem := fun b => if b = a then nd else h.mem b }

/-- The call `a->addEdge(e)`; the node and the edge have to be alive. -/
def Heap.addEdge (h : Heap) (a : Nat) (e : Edge) : Option Heap :=
  if a ∈ h.live ∧ e ∉ h.deleted then some (h.store a ((h.mem a).addEdge a e)) else none

/-- The call `a->removeEdge(e)`; the node and the edge have to be alive. -/
def Heap.removeEdge (h : Heap) (a : Nat) (e : Edge) : Option Heap :=
  if a ∈ h.live ∧ e ∉ h.deleted then some (h.store a ((h.mem a).removeEdge a e)) else none

/-- The statement `delete eP`. -/
def Heap.deleteEdge (h : Heap) (eP : Edge) : Option Heap :=
  if eP ∉ h.deleted then some { h with deleted := h.deleted ++ [eP] } else none

/-- One iteration of the first loop of `Node::~Node`, on the element `eP` of
`_adjListOut`. -/
def Heap.dtorOutStep (self : Nat) (h : Heap) (eP : Edge) : Option Heap :=
  if eP ∈ h.deleted then none
  else
    let h1 : Option Heap :=
      if eP.getFrom = self then
        some (h.store self
          { h.mem self with adjListOut := (h.mem self).adjListOut.erase eP })
      else h.removeEdge eP.getFrom eP
    match h1 with
    | none => none
    | some h1 =>
      match h1.removeEdge eP.getTo eP with
      | none => none
      | some h2 => h2.deleteEdge eP

/-- One iteration of the second loop of `Node::~Node`, on the element `eP`
of `_adjListIn`. -/
def Heap.dtorInStep (self : Nat) (h : Heap) (eP : Edge) : Option Heap :=
  if eP ∈ h.deleted then none
  else
    let h1 : Option Heap :=
      if eP.getTo = self then
        some (h.store self
          { h.mem self with adjListIn := (h.mem self).adjListIn.erase eP })
      else h.removeEdge eP.getTo eP
    match h1 with
    | none => none
    | some h1 =>
      match h1.removeEdge eP.getFrom eP with
      | none => none
      | some h2 => h2.deleteEdge eP

/-- Run a loop body over the elements of a set in iteration order. -/
def Heap.forEach (step : Heap → Edge → Option Heap) : List Edge → Heap → Option Heap
  | [], h => some h
  | eP :: rest, h =>
    match step h eP with
    | none => none
    | some h1 => Heap.forEach step rest h1

/-- Embedding of `Node::~Node` followed by the release of the node object.
The only elements the loops erase from the set they iterate are elements the
iterator has already passed, so each loop visits the elements the set has
when the loop starts. -/
def Heap.destroyNode (h : Heap) (self : Nat) : Option Heap :=
  if self ∈ h.live then
    match Heap.forEach (Heap.dtorOutStep self) (h.mem self).adjListOut h with
    | none => none
    | some h1 =>
      match Heap.forEach (Heap.dtorInStep self) (h1.mem self).adjListIn h1 with
      | none => none
      | some h2 => some { h2 with live := h2.live.erase self }
  else none

/-- Destroy the nodes at the addresses of `order`, first address first. -/
def Heap.destroyAll : List Nat → Heap → Option Heap
  | [], h => some h
  | a :: rest, h =>
    match h.destroyNode a with
    | none => none
    | some h1 => Heap.destroyAll rest h1

/-- The edges referenced from the adjacency sets of the live nodes. -/
def Heap.HasEdge (h : Heap) (e : Edge) : Prop :=
  ∃ a ∈ h.live, e ∈ (h.mem a).adjListOut ∨ e ∈ (h.mem a).adjListIn

/-- The adjacency of a heap is consistent: node addresses and set elements
are unique, no referenced edge has been deleted, every element of an
out-set has the node as `getFrom()`, its `getTo()` is alive and holds the
edge in its in-set, and the same with the roles exchanged. -/
def Heap.Consistent (h : Heap) : Prop :=
  h.live.Nodup ∧
  ∀ a ∈ h.live,
    (h.mem a).adjListOut.Nodup ∧ (h.mem a).adjListIn.Nodup ∧
    (∀ e ∈ (h.mem a).adjListOut,
      e ∉ h.deleted ∧ e.getFrom = a ∧ e.getTo ∈ h.live ∧ e ∈ (h.mem e.getTo).adjListIn) ∧
    (∀ e ∈ (h.mem a).adjListIn,
      e ∉ h.deleted ∧ e.getTo = a ∧ e.getFrom ∈ h.live ∧ e ∈ (h.mem e.getFrom).adjListOut)

instance (h : Heap) : Decidable h.Consistent := by
  unfold Heap.Consistent
  infer_instance

/-! ## Sequences of `addEdge` and `removeEdge` calls -/

/-- A call of `addEdge` or `removeEdge` on the node at address `node`. -/
inductive AdjCall where
  | addEdge (node : Nat) (e : Edge)
  | removeEdge (node : Nat) (e : Edge)

/-- The memory after one adjacency call. -/
def AdjCall.apply (mem : Nat → Node) : AdjCall → Nat → Node
  | .addEdge a e => fun b => if b = a then (mem a).addEdge a e else mem b
  | .removeEdge a e => fun b => if b = a then (mem a).removeEdge a e else mem b

/-- The memory after a sequence of adjacency calls on nodes that all start
fresh. -/
def runAdjCalls (calls : List AdjCall) : Nat → Node :=
  calls.foldl AdjCall.apply (fun _ => Node.fresh)

/-- The endpoint of `e` that is not `a` (for a self-loop, `a` itself). -/
def Edge.getOtherNode (e : Edge) (a : Nat) : Nat :=
  if e.getFrom = a then e.getTo else e.getFrom

/-- The adjacency of the node at address `a` is simple: no self-loop, and no
two distinct edges lead to the same other node. -/
def Node.Simple (a : Nat) (n : Node) : Prop :=
  (∀ e ∈ n.adjListOut ++ n.adjListIn, e.getFrom ≠ e.getTo) ∧
  (∀ e1 ∈ n.adjListOut ++ n.adjListIn, ∀ e2 ∈ n.adjListOut ++ n.adjListIn,
    e1.getOtherNode a = e2.getOtherNode a → e1 = e2)

instance (a : Nat) (n : Node) : Decidable (Node.Simple a n) := by
  unfold Node.Simple
  infer_instance

/-- The edge of an `addEdge` call. -/
def AdjCall.added : AdjCall → Option Edge
  | AdjCall.addEdge _ e => some e
  | AdjCall.removeEdge _ _ => none

/-- The edges passed to `addEdge` in a sequence of calls. -/
def addedEdges (calls : List AdjCall) : List Edge := calls.filterMap AdjCall.added

/-- Two edges join the same pair of nodes, in the same or in opposite
direction. -/
def Edge.Parallel (e1 e2 : Edge) : Prop :=
  (e1.getFrom = e2.getFrom ∧ e1.getTo = e2.getTo) ∨
    (e1.getFrom = e2.getTo ∧ e1.getTo = e2.getFrom)

instance (e1 e2 : Edge) : Decidable (e1.Parallel e2) := by
  unfold Edge.Parallel
  infer_instance

/-! ## Sample inputs and invariants used in the proofs -/

/-- An environment in which no edge has a trip for any route. -/
def noTripEnv : FrontEnv :=
  { getTripsForRouteUnder := fun _ _ _ => (false, 0)
    getTripPos := fun _ _ _ _ => { x := 0, y := 0 } }

/-- Every element of an adjacency set belongs to the node and satisfies `S`. -/
def AdjOwned (S : Edge → Prop) (mem : Nat → Node) : Prop :=
  ∀ a, (∀ e ∈ (mem a).adjListOut, e.getFrom = a ∧ S e) ∧
    (∀ e ∈ (mem a).adjListIn, e.getTo = a ∧ S e)

/-- The adjacency sets of the live nodes have no duplicates and hold only
edges that start (out-set) or end (in-set) at the node. -/
def Heap.Owned (h : Heap) : Prop :=
  ∀ a ∈ h.live,
    (h.mem a).adjListOut.Nodup ∧ (h.mem a).adjListIn.Nodup ∧
    (∀ e ∈ (h.mem a).adjListOut, e.getFrom = a) ∧
    (∀ e ∈ (h.mem a).adjListIn, e.getTo = a)

/-- Heap `h1` is heap `h` after the edges of `L` were deleted in this order
and erased from the adjacency sets of all live nodes. -/
def Heap.Purged (L : List Edge) (h h1 : Heap) : Prop :=
  h1.live = h.live ∧ h1.deleted = h.deleted ++ L ∧
  ∀ a ∈ h.live,
    (h1.mem a).adjListOut = (h.mem a).adjListOut.filter (fun e => decide (e ∉ L)) ∧
    (h1.mem a).adjListIn = (h.mem a).adjListIn.filter (fun e => decide (e ∉ L))

/-- A graph on the nodes 0, 1, 2 with the edges `0 → 1` (twice, as edges 1
and 4), `1 → 2` (edge 2) and the self-loop `1 → 1` (edge 3). -/
def sampleHeap : Heap :=
  { live := [0, 1, 2]
    mem := fun a =>
      if a = 0 then
        { adjListOut := [⟨1, 0, 1⟩, ⟨4, 0, 1⟩], adjListIn := [], mainDirs := [],
          routeConnExceptions := [] }
      else if a = 1 then
        { adjListOut := [⟨2, 1, 2⟩, ⟨3, 1, 1⟩],
          adjListIn := [⟨1, 0, 1⟩, ⟨3, 1, 1⟩, ⟨4, 0, 1⟩],
          mainDirs := [{ n := 1, edge := ⟨2, 1, 2⟩ }], routeConnExceptions := [] }
      else if a = 2 then
        { adjListOut := [], adjListIn := [⟨2, 1, 2⟩], mainDirs := [],
          routeConnExceptions := [] }
      else Node.fresh
    deleted := [] }

/-! ## Double precision -/

/-- Round a non-negative rational to the nearest natural number, a tie to
the even one. -/
def roundHalfEven (y : ℚ) : Nat :=
  let f := ⌊y⌋₊
  if y - f < 1 / 2 then f
  else if 1 / 2 < y - f then f + 1
  else if f % 2 = 0 then f else f + 1

/-- A value of the type `double` (IEEE 754 binary64): a finite value, given
by the rational number it denotes, an infinity, or a NaN.  The two zeros are
one value; they compare equal and the driver does nothing that tells them
apart.  A finite value `fin q` is a double when `q` is in the binary64
format, which is what `Double.IsDouble` says. -/
inductive Double where
  | fin (q : ℚ)
  | posInf
  | negInf
  | nan
  deriving DecidableEq

/-- The exponent of the unit in the last place of the binary64 numbers of the
binade of `x > 0`: 52 below the exponent of `x`, and `-1074` in the
subnormal range. -/
def Double.quantum (x : ℚ) : ℤ := max (Int.log 2 x - 52) (-1074)

/-- Round `x > 0` to binary64, to nearest with ties to even: the nearest
multiple of the unit in the last place, and infinity when that is `2^1024`
or more. -/
def Double.roundPos (x : ℚ) : Double :=
  let r : ℚ := roundHalfEven (x / 2 ^ Double.quantum x) * 2 ^ Double.quantum x
  if r < 2 ^ (1024 : ℕ) then Double.fin r else Double.posInf

/-- The negation of a double. -/
def Double.neg : Double → Double
  | Double.fin q => Double.fin (-q)
  | Double.posInf => Double.negInf
  | Double.negInf => Double.posInf
  | Double.nan => Double.nan

/-- Round a rational number to binary64 (round to nearest, ties to even). -/
def Double.round (q : ℚ) : Double :=
  if q = 0 then Double.fin 0
  else if 0 < q then Double.roundPos q
  else Double.neg (Double.roundPos (-q))

/-- The sum of two doubles: the rounded exact sum of finite values. -/
def Double.add : Double → Double → Double
  | Double.fin a, Double.fin b => Double.round (a + b)
  | Double.fin _, Double.posInf => Double.posInf
  | Double.fin _, Double.negInf => Double.negInf
  | Double.posInf, Double.fin _ => Double.posInf
  | Double.negInf, Double.fin _ => Double.negInf
  | Double.posInf, Double.posInf => Double.posInf
  | Double.negInf, Double.negInf => Double.negInf
  | _, _ => Double.nan

/-- The product of two doubles: the rounded exact product of finite
values. -/
def Double.mul : Double → Double → Double
  | Double.fin a, Double.fin b => Double.round (a * b)
  | Double.fin a, Double.posInf =>
    if a = 0 then Double.nan else if 0 < a then Double.posInf else Double.negInf
  | Double.fin a, Double.negInf =>
    if a = 0 then Double.nan else if 0 < a then Double.negInf else Double.posInf
  | Double.posInf, Double.fin b =>
    if b = 0 then Double.nan else if 0 < b then Double.posInf else Double.negInf
  | Double.negInf, Double.fin b =>
    if b = 0 then Double.nan else if 0 < b then Double.negInf else Double.posInf
  | Double.posInf, Double.posInf => Double.posInf
  | Double.negInf, Double.negInf => Double.posInf
  | Double.posInf, Double.negInf => Double.negInf
  | Double.negInf, Double.posInf => Double.negInf
  | _, _ => Double.nan

/-- The comparison `a <= b` of two doubles; false when one of them is a
NaN. -/
def Double.le : Double → Double → Bool
  | Double.fin a, Double.fin b => decide (a ≤ b)
  | Double.nan, _ => false
  | _, Double.nan => false
  | Double.negInf, _ => true
  | _, Double.posInf => true
  | _, _ => false

instance : Add Double := ⟨Double.add⟩

instance : Mul Double := ⟨Double.mul⟩

instance : LE Double := ⟨fun a b => Double.le a b = true⟩

instance (a b : Double) : Decidable (a ≤ b) :=
  inferInstanceAs (Decidable (Double.le a b = true))

/-- A literal in the program text, `5.0` or the `15` that is converted to
`double`: the rounded value. -/
instance (n : Nat) : OfNat Double n := ⟨Double.round n⟩

/-- The value is in the binary64 format: rounding leaves it as it is. -/
def Double.IsDouble : Double → Prop
  | Double.fin q => Double.round q = Double.fin q
  | _ => True

/-- The double nearest to `0.1`. -/
def tenth : ℚ := 3602879701896397 / 36028797018963968

/-- The values of `d` in the ladder loop for `cfg.maxAggrDistance = 0.1`. -/
def tenthLevels : List Double :=
  [Double.fin (3602879701896397 / 36028797018963968),
    Double.fin (3602879701896397 / 18014398509481984),
    Double.fin (1351079888211149 / 4503599627370496),
    Double.fin (3602879701896397 / 9007199254740992),
    Double.fin (1 / 2),
    Double.fin (5404319552844595 / 9007199254740992),
    Double.fin (3152519739159347 / 4503599627370496),
    Double.fin (7205759403792793 / 9007199254740992),
    Double.fin (2026619832316723 / 2251799813685248),
    Double.fin (9007199254740991 / 9007199254740992),
    Double.fin (4953959590107545 / 4503599627370496),
    Double.fin (5404319552844595 / 4503599627370496),
    Double.fin (5854679515581645 / 4503599627370496),
    Double.fin (6305039478318695 / 4503599627370496)]

/-- The double nearest to `1e308`. -/
def hugeDistance : ℚ := 5010420900022432 * 2 ^ (971 : ℕ)

/-! ## The topo driver -/

/-- The calls of `main` in `TopoMain.cpp` on its collaborators.  The
progress messages on `std::cerr` are left out, except for the distance the
ladder loop prints at the start of its body.  Distances are values of the
type `double`.  `freezeTrack k` is the call
whose argument is the result of the `k`-th call of `freeze` (`0` for
`statFr`, `1` for `restrFr`). -/
inductive Call where
  | readConfig
  | readFromJson
  | freeze
  | siInit
  | averageNodePositions
  | cleanUpGeoms
  | removeNodeArtifacts
  | removeEdgeArtifacts
  | riInit
  | logDistance (d : Double)
  | collapseShrdSegs (d : Double)
  | freezeTrack (k : Nat)
  | infer
  | insertStations
  | output
  deriving DecidableEq

/-- The progress of a run of the driver: the calls made so far and the
number of `collapseShrdSegs` calls among them. -/
structure Run where
  trace : List Call
  collapses : Nat

/-- The start of a run. -/
def Run.start : Run := { trace := [], collapses := 0 }

/-- Record a call. -/
def Run.call (s : Run) (c : Call) : Run := { s with trace := s.trace ++ [c] }

/-- The call `mc.collapseShrdSegs(d)`.  The code of `MapConstructor` is not
part of the sources at hand: the result of the `k`-th call of a run is
`res k`, for an arbitrary `res`. -/
def Run.collapseShrdSegs (res : Nat → Bool) (s : Run) (d : Double) : Bool × Run :=
  (res s.collapses,
    { trace := s.trace ++ [Call.collapseShrdSegs d], collapses := s.collapses + 1 })

/-- The loop `while (mc.collapseShrdSegs(d)) { mc.removeNodeArtifacts();
mc.removeEdgeArtifacts(); }`, for at most `fuel` evaluations of the
condition. -/
def collapseLoop (res : Nat → Bool) : Nat → Double → Run → Option Run
  | 0, _, _ => none
  | fuel + 1, d, s =>
    let r := s.collapseShrdSegs res d
    if r.1 then
      collapseLoop res fuel d ((r.2.call Call.removeNodeArtifacts).call Call.removeEdgeArtifacts)
    else some r.2

/-- The loop `for (double d = cfg.maxAggrDistance;
d <= (cfg.maxAggrDistance * 15); d += step)` of `main`, entered with the
current value of `d`, for at most `fuel` evaluations of its condition.  The
product, the sum and the comparison are those of the type `double`. -/
def ladderLoop (res : Nat → Bool) (maxAggrDistance step : Double) :
    Nat → Double → Run → Option Run
  | 0, _, _ => none
  | fuel + 1, d, s =>
    if d ≤ maxAggrDistance * 15 then
      match collapseLoop res fuel d (s.call (Call.logDistance d)) with
      | none => none
      | some s1 => ladderLoop res maxAggrDistance step fuel (d + step) s1
    else some s

/-- The calls of `main` before the ladder loop. -/
def mainPrologue (res : Nat → Bool) : Run :=
  let s := Run.start
  let s := s.call Call.readConfig
  let s := s.call Call.readFromJson
  let s := s.call Call.freeze
  let s := s.call Call.siInit
  let s := s.call Call.averageNodePositions
  let s := s.call Call.cleanUpGeoms
  let s := s.call Call.cleanUpGeoms
  let s := s.call Call.removeNodeArtifacts
  let s := s.call Call.removeEdgeArtifacts
  let s := s.call Call.riInit
  let s := s.call Call.freeze
  (s.collapseShrdSegs res 5).2

/-- The calls of `main` after the ladder loop. -/
def mainEpilogue (s : Run) : Run :=
  let s := s.call Call.removeNodeArtifacts
  let s := s.call Call.averageNodePositions
  let s := s.call (Call.freezeTrack 1)
  let s := s.call Call.infer
  let s := s.call (Call.freezeTrack 0)
  let s := s.call Call.insertStations
  s.call Call.output

/-- Embedding of `main` of `TopoMain.cpp`: the trace of a run with
`cfg.maxAggrDistance = maxAggrDistance`. -/
def main (res : Nat → Bool) (maxAggrDistance : Double) (fuel : Nat) : Option (List Call) :=
  let step := maxAggrDistance
  match ladderLoop res maxAggrDistance step fuel maxAggrDistance (mainPrologue res) with
  | none => none
  | some s => some (mainEpilogue s).trace

/-- The distance of a call that prints one. -/
def Call.asLogDistance : Call → Option Double
  | Call.logDistance d => some d
  | _ => none

/-- The distance of a call of `collapseShrdSegs`. -/
def Call.asCollapseDistance : Call → Option Double
  | Call.collapseShrdSegs d => some d
  | _ => none

/-- The distances printed by the ladder loop, in order. -/
def loggedDistances (t : List Call) : List Double := t.filterMap Call.asLogDistance

/-- The distances passed to `collapseShrdSegs`, in order. -/
def collapseDistances (t : List Call) : List Double := t.filterMap Call.asCollapseDistance

/-- The levels of the ladder for a finite `d0`: the doubles with the values
`d0, 2·d0, …, 15·d0`. -/
def ladderLevels (d0 : ℚ) : List Double :=
  [Double.fin d0, Double.fin (2 * d0), Double.fin (3 * d0), Double.fin (4 * d0),
    Double.fin (5 * d0), Double.fin (6 * d0), Double.fin (7 * d0), Double.fin (8 * d0),
    Double.fin (9 * d0), Double.fin (10 * d0), Double.fin (11 * d0), Double.fin (12 * d0),
    Double.fin (13 * d0), Double.fin (14 * d0), Double.fin (15 * d0)]

/-- The calls of one level at distance `d` on which `collapseShrdSegs`
reports a collapse `c` times and then none: each collapse is followed by the
two artifact removals and a further call. -/
def levelCalls (d : Double) : Nat → List Call
  | 0 => [Call.collapseShrdSegs d]
  | c + 1 =>
    Call.collapseShrdSegs d :: Call.removeNodeArtifacts :: Call.removeEdgeArtifacts ::
      levelCalls d c

/-- The calls of the levels `ds`, the level at the `i`-th distance with the
`i`-th number of collapses. -/
def ladderCalls : List Double → List Nat → List Call
  | d :: ds, c :: cs => Call.logDistance d :: (levelCalls d c ++ ladderCalls ds cs)
  | _, _ => []

/-- The distance `d` repeated `c + 1` times, for each level `d` and number of
collapses `c`. -/
def levelRuns : List Double → List Nat → List Double
  | d :: ds, c :: cs => List.replicate (c + 1) d ++ levelRuns ds cs
  | _, _ => []

/-- The calls made inside the ladder loop. -/
def Call.inLadder : Call → Bool
  | Call.logDistance _ => true
  | Call.collapseShrdSegs _ => true
  | Call.removeNodeArtifacts => true
  | Call.removeEdgeArtifacts => true
  | _ => false

/-- The trace of the run of `main` with `cfg.maxAggrDistance = 1` in which
`collapseShrdSegs` never reports a collapse. -/
def quietTrace : List Call :=
  [Call.readConfig, Call.readFromJson, Call.freeze, Call.siInit, Call.averageNodePositions,
    Call.cleanUpGeoms, Call.cleanUpGeoms, Call.removeNodeArtifacts, Call.removeEdgeArtifacts,
    Call.riInit, Call.freeze, Call.collapseShrdSegs 5,
    Call.logDistance 1, Call.collapseShrdSegs 1, Call.logDistance 2, Call.collapseShrdSegs 2,
    Call.logDistance 3, Call.collapseShrdSegs 3, Call.logDistance 4, Call.collapseShrdSegs 4,
    Call.logDistance 5, Call.collapseShrdSegs 5, Call.logDistance 6, Call.collapseShrdSegs 6,
    Call.logDistance 7, Call.collapseShrdSegs 7, Call.logDistance 8, Call.collapseShrdSegs 8,
    Call.logDistance 9, Call.collapseShrdSegs 9, Call.logDistance 10, Call.collapseShrdSegs 10,
    Call.logDistance 11, Call.collapseShrdSegs 11, Call.logDistance 12,
    Call.collapseShrdSegs 12, Call.logDistance 13, Call.collapseShrdSegs 13,
    Call.logDistance 14, Call.collapseShrdSegs 14, Call.logDistance 15,
    Call.collapseShrdSegs 15,
    Call.removeNodeArtifacts, Call.averageNodePositions, Call.freezeTrack 1, Call.infer,
    Call.freezeTrack 0, Call.insertStations, Call.output]

/-! ## Inner geometries of a node -/

/-- The fields of `RouteOccurance` read by `Node.cpp`: the route and the
node the direction points to (`0` for none). -/
structure RouteOccurance where
  route : Route
  direction : Nat

/-- The type `graph::Partner`: a front of the node (behind a pointer in the
source), the edge of that front and a route. -/
structure Partner where
  front : NodeFront
  edge : Edge
  route : Route

/-- The four control points passed to the constructor of `geo::BezierCurve`,
in the order of the arguments. -/
structure BezierCurve where
  a : Point
  b : Point
  c : Point
  d : Point

/-- The points of a `geo::PolyLine`. -/
abbrev PolyLine := List Point

/-- Functions of the geometry library that `Node::getInnerBezier` calls and
that are taken as given: `util::geo::dist`, the length of the geometry of an
edge (`getGeom().getLength()`), the slope of the geometry of an edge between
two arclengths (`getGeom().getSlopeBetweenDists`), and
`BezierCurve::render`. -/
structure GeoEnv where
  dist : Point → Point → ℚ
  getLength : Edge → ℚ
  getSlopeBetweenDists : Edge → ℚ → ℚ → ℚ × ℚ
  render : BezierCurve → ℚ → PolyLine

/-- Embedding of `Node::getInnerBezier`; `self` is the address of the node.
The locals `b` and `c` are initialised with `p` and `pp` and assigned once
more before their only use; the embedding keeps the assigned values.  No
value is yielded when one of the two trip positions is undefined. -/
def Node.getInnerBezier (env : FrontEnv) (geo : GeoEnv) (self : Nat) (cf : Configuration)
    (nf : NodeFront) (tripOcc : RouteOccurance) (partner : Partner) (e : Option Edge)
    (order : Option Ordering) (prec : ℚ) : Option PolyLine :=
  match nf.getTripOccPosUnder env tripOcc.route cf e order with
  | none => none
  | some p =>
    match partner.front.getTripOccPosUnder env partner.route cf e order with
    | none => none
    | some pp =>
      let d := geo.dist p pp / 2
      let slopeA : ℚ × ℚ :=
        if nf.edge.getTo = self then
          geo.getSlopeBetweenDists nf.edge (geo.getLength nf.edge - 5) (geo.getLength nf.edge)
        else geo.getSlopeBetweenDists nf.edge 5 0
      let slopeB : ℚ × ℚ :=
        if partner.front.edge.getTo = self then
          geo.getSlopeBetweenDists partner.front.edge (geo.getLength partner.front.edge - 5)
            (geo.getLength partner.front.edge)
        else geo.getSlopeBetweenDists partner.front.edge 5 0
      let b : Point := { x := p.x + slopeA.1 * d, y := p.y + slopeA.2 * d }
      let c : Point := { x := pp.x + slopeB.1 * d, y := pp.y + slopeB.2 * d }
      some (geo.render { a := p, b := b, c := c, d := pp } prec)

/-- Embedding of `Node::getInnerStraightLine`: the segment between the two
trip positions. -/
def Node.getInnerStraightLine (env : FrontEnv) (cf : Configuration) (nf : NodeFront)
    (tripOcc : RouteOccurance) (partner : Partner) (e : Option Edge)
    (order : Option Ordering) : Option PolyLine :=
  match nf.getTripOccPosUnder env tripOcc.route cf e order with
  | none => none
  | some p =>
    match partner.front.getTripOccPosUnder env partner.route cf e order with
    | none => none
    | some pp => some [p, pp]

/-- The tangent of an edge at its end incident to the node `self`, in the
words of the specification: the slope between the arclengths `length - 5`
and `length` when the to-node of the edge is `self`, between `5` and `0`
otherwise. -/
def endTangent (geo : GeoEnv) (self : Nat) (edge : Edge) : ℚ × ℚ :=
  if edge.getTo = self then
    geo.getSlopeBetweenDists edge (geo.getLength edge - 5) (geo.getLength edge)
  else geo.getSlopeBetweenDists edge 5 0

/-- The point `p + d·t` for a direction `t`. -/
def Point.shift (p : Point) (d : ℚ) (t : ℚ × ℚ) : Point :=
  { x := p.x + d * t.1, y := p.y + d * t.2 }

/-- The cubic of the specification for the trip positions `p` and `pp`: the
control points `(p, p + d·slopeA, pp + d·slopeB, pp)` with `d` half the
distance between `p` and `pp`. -/
def innerBezierCurve (geo : GeoEnv) (self : Nat) (nf : NodeFront) (partner : Partner)
    (p pp : Point) : BezierCurve :=
  { a := p
    b := p.shift (geo.dist p pp / 2) (endTangent geo self nf.edge)
    c := pp.shift (geo.dist p pp / 2) (endTangent geo self partner.front.edge)
    d := pp }

/-- An environment in which every edge has the trip at position `0`, placed
at `(0, 0)` on the fronts of edge 7 and at `(6, 8)` on all other fronts. -/
def sampleFrontEnv : FrontEnv :=
  { getTripsForRouteUnder := fun _ _ _ => (true, 0)
    getTripPos := fun nf _ _ _ =>
      if nf.edge.id = 7 then { x := 0, y := 0 } else { x := 6, y := 8 } }

/-- A geometry in which the distance is the sum of the coordinate
differences squared, every edge has length 20, and the slope between two
arclengths points along the first axis, forward or backward. -/
def sampleGeoEnv : GeoEnv :=
  { dist := fun p q => (p.x - q.x) ^ 2 + (p.y - q.y) ^ 2
    getLength := fun _ => 20
    getSlopeBetweenDists := fun _ s t => if s ≤ t then (1, 0) else (-1, 0)
    render := fun bc _ => [bc.a, bc.b, bc.c, bc.d] }

/-! ## Lemmas on maps -/

theorem mapFind_mapModify {κ ν : Type} [DecidableEq κ] (dflt : ν) (f : ν → ν) (k k' : κ)
    (m : List (κ × ν)) :
    mapFind k' (mapModify dflt f k m) =
      if k = k' then some (f ((mapFind k m).getD dflt)) else mapFind k' m := by
  induction m with
  | nil =>
    by_cases h : k = k' <;> simp [mapModify, mapFind, h]
  | cons p m ih =>
    obtain ⟨k0, v⟩ := p
    by_cases h0 : k0 = k
    · subst h0
      by_cases h : k0 = k' <;> simp [mapModify, mapFind, h]
    · by_cases h : k = k'
      · subst h
        simp [mapModify, mapFind, h0, ih]
      · by_cases h1 : k0 = k'
        · subst h1
          simp [mapModify, mapFind, h0, h]
        · simp [mapModify, mapFind, h0, h1, ih, h]

/-- Membership in the stored exception sets after one insertion
`m[r][a].insert(b)`. -/
theorem stored_insert (m : RouteConnExceptions) (r r' : Route) (a b a' b' : Edge) :
    (∃ i ii, mapFind r' (mapModify [] (mapModify [] (List.insert b) a) r m) = some i ∧
        mapFind a' i = some ii ∧ b' ∈ ii) ↔
      ((∃ i ii, mapFind r' m = some i ∧ mapFind a' i = some ii ∧ b' ∈ ii) ∨
        (r' = r ∧ a' = a ∧ b' = b)) := by
  rw [mapFind_mapModify]
  by_cases hr : r = r'
  · subst hr
    simp only [if_true, Option.some.injEq, true_and]
    constructor
    · rintro ⟨i, ii, rfl, h2, h3⟩
      rw [mapFind_mapModify] at h2
      by_cases ha : a = a'
      · subst ha
        simp only [if_true, Option.some.injEq] at h2
        subst h2
        rcases List.mem_insert_iff.mp h3 with h | h
        · exact Or.inr ⟨rfl, h⟩
        · left
          cases hm : mapFind r m with
          | none => simp [hm, mapFind] at h
          | some i0 =>
            cases hm2 : mapFind a i0 with
            | none => simp [hm, hm2] at h
            | some s => exact ⟨i0, s, rfl, hm2, by simpa [hm, hm2] using h⟩
      · simp only [ha, if_false] at h2
        left
        cases hm : mapFind r m with
        | none => simp [hm, mapFind] at h2
        | some i0 => exact ⟨i0, ii, rfl, by simpa [hm] using h2, h3⟩
    · rintro (⟨i, ii, h1, h2, h3⟩ | ⟨ha, hb⟩)
      · refine ⟨_, if a = a' then List.insert b ii else ii, rfl, ?_, ?_⟩
        · rw [mapFind_mapModify]
          by_cases ha : a = a'
          · subst ha
            simp [h1, h2]
          · simp [ha, h1, h2]
        · by_cases ha : a = a'
          · simp [ha, List.mem_insert_iff, h3]
          · simp [ha, h3]
      · subst ha
        subst hb
        refine ⟨_, List.insert b' ((mapFind a' ((mapFind r m).getD [])).getD []), rfl, ?_, ?_⟩
        · rw [mapFind_mapModify]
          simp
        · exact List.mem_insert_self _ _
  · simp only [hr, if_false]
    constructor
    · intro h
      exact Or.inl h
    · rintro (h | ⟨h, -⟩)
      · exact h
      · exact absurd h.symm hr

/-! ## Route-connection exceptions: lemmas -/

/-- The answer of `connOccurs` in terms of the stored exception sets. -/
theorem connOccurs_eq_true_iff (n : Node) (r : Route) (a b : Edge) :
    n.connOccurs r a b = true ↔ ¬ n.excStored r a b := by
  unfold Node.connOccurs Node.excStored
  cases h1 : mapFind r n.routeConnExceptions with
  | none => simp
  | some i =>
    cases h2 : mapFind a i with
    | none => simp [h2]
    | some ii => simp [h2]

/-- The stored exception sets after one call of `addRouteConnException`. -/
theorem excStored_add (n : Node) (r r' : Route) (a b a' b' : Edge) :
    (n.addRouteConnException r a b).excStored r' a' b' ↔
      (n.excStored r' a' b' ∨ (r' = r ∧ ((a' = a ∧ b' = b) ∨ (a' = b ∧ b' = a)))) := by
  unfold Node.addRouteConnException Node.excStored
  simp only
  rw [stored_insert, stored_insert]
  constructor
  · rintro ((h | ⟨h1, h2, h3⟩) | ⟨h1, h2, h3⟩)
    · exact Or.inl h
    · exact Or.inr ⟨h1, Or.inl ⟨h2, h3⟩⟩
    · exact Or.inr ⟨h1, Or.inr ⟨h2, h3⟩⟩
  · rintro (h | ⟨h1, ⟨h2, h3⟩ | ⟨h2, h3⟩⟩)
    · exact Or.inl (Or.inl h)
    · exact Or.inl (Or.inr ⟨h1, h2, h3⟩)
    · exact Or.inr ⟨h1, h2, h3⟩

/-- The stored exception sets after a sequence of calls. -/
theorem excStored_calls (calls : List ExcCall) (n : Node) (r : Route) (a b : Edge) :
    (n.addRouteConnExceptions calls).excStored r a b ↔
      (n.excStored r a b ∨
        ∃ c ∈ calls, c.1 = r ∧ ((c.2.1 = a ∧ c.2.2 = b) ∨ (c.2.1 = b ∧ c.2.2 = a))) := by
  induction calls generalizing n with
  | nil => simp [Node.addRouteConnExceptions]
  | cons c cs ih =>
    have hstep : Node.addRouteConnExceptions n (c :: cs) =
        Node.addRouteConnExceptions (n.addRouteConnException c.1 c.2.1 c.2.2) cs := rfl
    rw [hstep, ih, excStored_add]
    constructor
    · rintro ((h | ⟨h1, h2⟩) | ⟨c', hc', h⟩)
      · exact Or.inl h
      · refine Or.inr ⟨c, List.mem_cons_self _ _, h1.symm, ?_⟩
        rcases h2 with ⟨h3, h4⟩ | ⟨h3, h4⟩
        · exact Or.inl ⟨h3.symm, h4.symm⟩
        · exact Or.inr ⟨h4.symm, h3.symm⟩
      · exact Or.inr ⟨c', List.mem_cons_of_mem _ hc', h⟩
    · rintro (h | ⟨c', hc', h1, h2⟩)
      · exact Or.inl (Or.inl h)
      · rcases List.mem_cons.mp hc' with rfl | hc'
        · refine Or.inl (Or.inr ⟨h1.symm, ?_⟩)
          rcases h2 with ⟨h3, h4⟩ | ⟨h3, h4⟩
          · exact Or.inl ⟨h3.symm, h4.symm⟩
          · exact Or.inr ⟨h4.symm, h3.symm⟩
        · exact Or.inr ⟨c', hc', h1, h2⟩

/-- A fresh node stores no exception. -/
theorem not_excStored_fresh (r : Route) (a b : Edge) : ¬ Node.fresh.excStored r a b := by
  simp [Node.excStored, Node.fresh, mapFind]

/-- The stored exceptions of a node reached from a fresh one are symmetric. -/
theorem excStored_comm_of_fresh (calls : List ExcCall) (r : Route) (a b : Edge) :
    (Node.fresh.addRouteConnExceptions calls).excStored r a b →
      (Node.fresh.addRouteConnExceptions calls).excStored r b a := by
  rw [excStored_calls, excStored_calls]
  rintro (h | ⟨c, hc, h1, h2⟩)
  · exact absurd h (not_excStored_fresh r a b)
  · exact Or.inr ⟨c, hc, h1, h2.symm⟩

/-! ## Route-connection exceptions: the claims -/

/-- C1: on every node reached from a freshly constructed node by a finite
sequence of `addRouteConnException` calls, `connOccurs(r, a, b)` and
`connOccurs(r, b, a)` give the same answer, for every route and pair of
edges. -/
theorem connOccurs_symmetric (calls : List ExcCall) (r : Route) (a b : Edge) :
    (Node.fresh.addRouteConnExceptions calls).connOccurs r a b =
      (Node.fresh.addRouteConnExceptions calls).connOccurs r b a := by
  rw [Bool.eq_iff_iff, connOccurs_eq_true_iff, connOccurs_eq_true_iff]
  exact not_congr ⟨excStored_comm_of_fresh calls r a b, excStored_comm_of_fresh calls r b a⟩

/-- C2: on every node reached from a freshly constructed node by
`addRouteConnException` calls, edge `b` is in the exception set stored under
`(r, a)` if and only if edge `a` is in the set stored under `(r, b)`. -/
theorem routeConnExceptions_symmetric (calls : List ExcCall) (r : Route) (a b : Edge) :
    (Node.fresh.addRouteConnExceptions calls).excStored r a b ↔
      (Node.fresh.addRouteConnExceptions calls).excStored r b a :=
  ⟨excStored_comm_of_fresh calls r a b, excStored_comm_of_fresh calls r b a⟩

/-- C3: for every node state, after `addRouteConnException(r, a, b)` both
`connOccurs(r, a, b)` and `connOccurs(r, b, a)` return false, also when
`a = b` and when the exception was present before. -/
theorem connOccurs_false_after_add (n : Node) (r : Route) (a b : Edge) :
    (n.addRouteConnException r a b).connOccurs r a b = false ∧
      (n.addRouteConnException r a b).connOccurs r b a = false := by
  constructor
  · rw [← Bool.not_eq_true, connOccurs_eq_true_iff, not_not, excStored_add]
    exact Or.inr ⟨rfl, Or.inl ⟨rfl, rfl⟩⟩
  · rw [← Bool.not_eq_true, connOccurs_eq_true_iff, not_not, excStored_add]
    exact Or.inr ⟨rfl, Or.inr ⟨rfl, rfl⟩⟩

/-- C4: `connOccurs` defaults to true.  On a node reached from a fresh node
by calls of `addRouteConnException` none of which has both the route `r` and
the edge `a` (as either of its two edges), `connOccurs(r, a, b)` returns true
for every `b`; this covers the node without any call and the node without a
call for route `r`. -/
theorem connOccurs_default_true (calls : List ExcCall) (r : Route) (a b : Edge)
    (h : ∀ c ∈ calls, c.1 = r → c.2.1 ≠ a ∧ c.2.2 ≠ a) :
    (Node.fresh.addRouteConnExceptions calls).connOccurs r a b = true := by
  rw [connOccurs_eq_true_iff, excStored_calls]
  rintro (h0 | ⟨c, hc, h1, h2⟩)
  · exact not_excStored_fresh r a b h0
  · rcases h2 with ⟨h3, -⟩ | ⟨-, h4⟩
    · exact (h c hc h1).1 h3
    · exact (h c hc h1).2 h4

/-- Witness for C4: after an exception for route 1 between edges 10 and 11 and
one for route 2 between edges 12 and 10, route 1 still continues from edge 12
to edge 10. -/
theorem connOccurs_default_true_witness :
    (Node.fresh.addRouteConnExceptions
        [(1, ⟨10, 0, 1⟩, ⟨11, 0, 2⟩), (2, ⟨12, 0, 3⟩, ⟨10, 0, 1⟩)]).connOccurs
      1 ⟨12, 0, 3⟩ ⟨10, 0, 1⟩ = true :=
  connOccurs_default_true [(1, ⟨10, 0, 1⟩, ⟨11, 0, 2⟩), (2, ⟨12, 0, 3⟩, ⟨10, 0, 1⟩)]
    1 ⟨12, 0, 3⟩ ⟨10, 0, 1⟩ (by decide)

/-! ## Double precision: lemmas -/

theorem roundHalfEven_bounds (y : ℚ) (hy : 0 ≤ y) :
    y - 1 / 2 ≤ (roundHalfEven y : ℚ) ∧ (roundHalfEven y : ℚ) ≤ y + 1 / 2 := by
  have h1 := Nat.floor_le hy
  have h2 := Nat.lt_floor_add_one y
  unfold roundHalfEven
  simp only []
  split_ifs with a b c
  · constructor <;> linarith
  · push_cast
    constructor <;> linarith
  · have : y - (⌊y⌋₊ : ℚ) = 1 / 2 := le_antisymm (not_lt.mp b) (not_lt.mp a)
    constructor <;> linarith
  · have : y - (⌊y⌋₊ : ℚ) = 1 / 2 := le_antisymm (not_lt.mp b) (not_lt.mp a)
    push_cast
    constructor <;> linarith

theorem roundHalfEven_natCast (n : ℕ) : roundHalfEven (n : ℚ) = n := by
  unfold roundHalfEven
  simp [Nat.floor_natCast]

/-- The nearest natural number, with the even one on a tie. -/
theorem roundHalfEven_eq (y : ℚ) (n : ℕ) (hy : 0 ≤ y) (h1 : (n : ℚ) - 1 / 2 ≤ y)
    (h2 : y ≤ n + 1 / 2) (h3 : (y = n - 1 / 2 ∨ y = n + 1 / 2) → n % 2 = 0) :
    roundHalfEven y = n := by
  by_cases hyn : (n : ℚ) ≤ y
  · have hf : ⌊y⌋₊ = n := by
      rw [Nat.floor_eq_iff hy]
      exact ⟨hyn, by linarith⟩
    unfold roundHalfEven
    simp only [hf]
    by_cases ha : y - (n : ℚ) < 1 / 2
    · rw [if_pos ha]
    · have hy2 : y = n + 1 / 2 := by linarith
      have hb : ¬ (1 / 2 < y - (n : ℚ)) := by linarith
      rw [if_neg ha, if_neg hb, if_pos (h3 (Or.inr hy2))]
  · obtain ⟨m, rfl⟩ : ∃ m, n = m + 1 := by
      cases n with
      | zero => exact absurd (by simpa using hy) hyn
      | succ m => exact ⟨m, rfl⟩
    push_cast at h1 h2 h3 hyn
    have hf : ⌊y⌋₊ = m := by
      rw [Nat.floor_eq_iff hy]
      exact ⟨by linarith, by linarith⟩
    unfold roundHalfEven
    simp only [hf]
    have ha : ¬ (y - (m : ℚ) < 1 / 2) := by linarith
    rw [if_neg ha]
    by_cases hb : 1 / 2 < y - (m : ℚ)
    · rw [if_pos hb]
    · have hy2 : y = (m : ℚ) + 1 - 1 / 2 := by linarith
      have hpar := h3 (Or.inl hy2)
      have hm : ¬ (m % 2 = 0) := by omega
      rw [if_neg hb, if_neg hm]

/-- The exponent of `x` is `E` when `2 ^ E ≤ x < 2 ^ (E + 1)`. -/
theorem int_log_two_eq (x : ℚ) (E : ℤ) (hlo : (2 : ℚ) ^ E ≤ x) (hhi : x < (2 : ℚ) ^ (E + 1)) :
    Int.log 2 x = E := by
  have hx : 0 < x := lt_of_lt_of_le (zpow_pos (by norm_num) E) hlo
  apply le_antisymm
  · have := (Int.lt_zpow_iff_log_lt (b := 2) (by norm_num) hx (x := E + 1)).mp
      (by exact_mod_cast hhi)
    omega
  · exact (Int.zpow_le_iff_le_log (b := 2) (by norm_num) hx).mp (by exact_mod_cast hlo)

theorem two_zpow_log_le (x : ℚ) (hx : 0 < x) : (2 : ℚ) ^ Int.log 2 x ≤ x := by
  have := Int.zpow_log_le_self (b := 2) (by norm_num) hx
  exact_mod_cast this

theorem lt_two_zpow_log_succ (x : ℚ) : x < (2 : ℚ) ^ (Int.log 2 x + 1) := by
  have := Int.lt_zpow_succ_log_self (b := 2) (by norm_num) x
  exact_mod_cast this

theorem quantum_pos (x : ℚ) : (0 : ℚ) < 2 ^ Double.quantum x := zpow_pos (by norm_num) _

theorem two_zpow_neg_natCast (k : ℕ) : (2 : ℚ) ^ (-(k : ℤ)) = 1 / 2 ^ k := by
  rw [zpow_neg, zpow_natCast, one_div]

/-- The unit in the last place is at least the smallest subnormal number. -/
theorem quantum_lower (x : ℚ) : (1 : ℚ) / 2 ^ (1074 : ℕ) ≤ 2 ^ Double.quantum x := by
  rw [← two_zpow_neg_natCast]
  apply zpow_le_zpow_right₀ (by norm_num)
  unfold Double.quantum
  exact le_max_right _ _

/-- The unit in the last place is at most `x / 2 ^ 52`, outside the
subnormal range. -/
theorem quantum_upper (x : ℚ) (hx : 0 < x) :
    (2 : ℚ) ^ Double.quantum x ≤ x / 2 ^ (52 : ℕ) + 1 / 2 ^ (1074 : ℕ) := by
  unfold Double.quantum
  rcases max_cases (Int.log 2 x - 52) (-1074) with ⟨h, -⟩ | ⟨h, -⟩
  · have h52 : (2 : ℚ) ^ (52 : ℤ) = 2 ^ (52 : ℕ) := zpow_natCast 2 52
    rw [h, zpow_sub₀ (by norm_num), h52]
    have h1 := two_zpow_log_le x hx
    have h2 : (2 : ℚ) ^ Int.log 2 x / 2 ^ (52 : ℕ) ≤ x / 2 ^ (52 : ℕ) :=
      div_le_div_of_nonneg_right h1 (by positivity)
    have h3 : (0 : ℚ) ≤ 1 / 2 ^ (1074 : ℕ) := by positivity
    linarith
  · rw [h]
    have h1 : (2 : ℚ) ^ (-1074 : ℤ) = 1 / 2 ^ (1074 : ℕ) := two_zpow_neg_natCast 1074
    have h2 : (0 : ℚ) ≤ x / 2 ^ (52 : ℕ) := by positivity
    linarith

/-- Rounding a positive number gives an infinity or a finite value within
half a unit in the last place. -/
theorem roundPos_cases (x : ℚ) (hx : 0 < x) :
    Double.roundPos x = Double.posInf ∨
      ∃ r, Double.roundPos x = Double.fin r ∧
        x - (x / 2 ^ (53 : ℕ) + 1 / 2 ^ (1075 : ℕ)) ≤ r ∧
        r ≤ x + (x / 2 ^ (53 : ℕ) + 1 / 2 ^ (1075 : ℕ)) := by
  have hu := quantum_pos x
  have hup := quantum_upper x hx
  have hb := roundHalfEven_bounds (x / 2 ^ Double.quantum x) (by positivity)
  have e1 : x / 2 ^ Double.quantum x * 2 ^ Double.quantum x = x :=
    div_mul_cancel₀ x (ne_of_gt hu)
  have b1 := mul_le_mul_of_nonneg_right hb.1 hu.le
  have b2 := mul_le_mul_of_nonneg_right hb.2 hu.le
  rw [sub_mul, e1] at b1
  rw [add_mul, e1] at b2
  have p53 : (2 : ℚ) ^ (53 : ℕ) = 2 * 2 ^ (52 : ℕ) := by norm_num
  have p1075 : (2 : ℚ) ^ (1075 : ℕ) = 2 * 2 ^ (1074 : ℕ) := by norm_num
  have h53 : x / 2 ^ (53 : ℕ) = x / 2 ^ (52 : ℕ) / 2 := by
    rw [p53, div_div, mul_comm]
  have h1075 : (1 : ℚ) / 2 ^ (1075 : ℕ) = 1 / 2 ^ (1074 : ℕ) / 2 := by
    rw [p1075, div_div, mul_comm]
  unfold Double.roundPos
  simp only []
  by_cases hfin : (roundHalfEven (x / 2 ^ Double.quantum x) : ℚ) * 2 ^ Double.quantum x <
      2 ^ (1024 : ℕ)
  · right
    refine ⟨_, if_pos hfin, ?_, ?_⟩
    · rw [h53, h1075]
      linarith
    · rw [h53, h1075]
      linarith
  · left
    exact if_neg hfin

/-- Rounding a number that is `2 ^ 1024` or more overflows. -/
theorem roundPos_overflow (x : ℚ) (hx : (2 : ℚ) ^ (1024 : ℕ) ≤ x) :
    Double.roundPos x = Double.posInf := by
  have hx0 : 0 < x := lt_of_lt_of_le (pow_pos (by norm_num) 1024) hx
  have h1024 : (2 : ℚ) ^ (1024 : ℤ) = 2 ^ (1024 : ℕ) := zpow_natCast 2 1024
  have hE : (1024 : ℤ) ≤ Int.log 2 x := by
    apply (Int.zpow_le_iff_le_log (b := 2) (by norm_num) hx0).mp
    rw [Nat.cast_ofNat, h1024]
    exact hx
  have hq : Double.quantum x = Int.log 2 x - 52 := by
    unfold Double.quantum
    exact max_eq_left (by omega)
  have hu := quantum_pos x
  have hlog := two_zpow_log_le x hx0
  have hb := roundHalfEven_bounds (x / 2 ^ Double.quantum x) (by positivity)
  have h52 : (2 : ℚ) ^ (52 : ℤ) = 2 ^ (52 : ℕ) := zpow_natCast 2 52
  have hsplit : (2 : ℚ) ^ Int.log 2 x = 2 ^ (52 : ℕ) * 2 ^ Double.quantum x := by
    rw [hq, ← h52, ← zpow_add₀ (by norm_num)]
    congr 1
    omega
  have hy : (2 : ℚ) ^ (52 : ℕ) ≤ x / 2 ^ Double.quantum x := by
    rw [le_div_iff₀ hu, ← hsplit]
    exact hlog
  have hn : 2 ^ (52 : ℕ) ≤ roundHalfEven (x / 2 ^ Double.quantum x) := by
    by_contra hlt
    have hlt2 : roundHalfEven (x / 2 ^ Double.quantum x) + 1 ≤ 2 ^ (52 : ℕ) := by omega
    have hc : ((roundHalfEven (x / 2 ^ Double.quantum x) : ℚ)) + 1 ≤ 2 ^ (52 : ℕ) := by
      exact_mod_cast hlt2
    linarith [hb.1]
  have hnq : (2 : ℚ) ^ (52 : ℕ) ≤ (roundHalfEven (x / 2 ^ Double.quantum x) : ℚ) := by
    exact_mod_cast hn
  have hr : (2 : ℚ) ^ (1024 : ℕ) ≤
      (roundHalfEven (x / 2 ^ Double.quantum x) : ℚ) * 2 ^ Double.quantum x := by
    have h1 : (2 : ℚ) ^ (1024 : ℕ) ≤ 2 ^ Int.log 2 x := by
      rw [← h1024]
      exact zpow_le_zpow_right₀ (by norm_num) hE
    calc (2 : ℚ) ^ (1024 : ℕ) ≤ 2 ^ Int.log 2 x := h1
      _ = 2 ^ (52 : ℕ) * 2 ^ Double.quantum x := hsplit
      _ ≤ _ := mul_le_mul_of_nonneg_right hnq hu.le
  unfold Double.roundPos
  simp only []
  exact if_neg (not_lt.mpr hr)

/-- Evaluate the rounding of a positive number from its exponent `E` and the
nearest multiple `n` of the unit in the last place. -/
theorem roundPos_eval (x : ℚ) (E : ℤ) (n : ℕ) (hlo : (2 : ℚ) ^ E ≤ x)
    (hhi : x < (2 : ℚ) ^ (E + 1)) (hE : -1074 ≤ E - 52)
    (hn : roundHalfEven (x / 2 ^ (E - 52)) = n)
    (hfin : (n : ℚ) * 2 ^ (E - 52) < 2 ^ (1024 : ℕ)) :
    Double.roundPos x = Double.fin (n * 2 ^ (E - 52)) := by
  have hq : Double.quantum x = E - 52 := by
    unfold Double.quantum
    rw [int_log_two_eq x E hlo hhi]
    exact max_eq_left hE
  unfold Double.roundPos
  simp only [hq, hn]
  exact if_pos hfin

/-- Natural numbers below `2 ^ 53` are doubles. -/
theorem round_natCast (n : ℕ) (h : n < 2 ^ 53) : Double.round (n : ℚ) = Double.fin (n : ℚ) := by
  by_cases hn0 : n = 0
  · subst hn0
    simp [Double.round]
  have hnpos : (0 : ℚ) < n := by exact_mod_cast Nat.pos_of_ne_zero hn0
  have hlog : Nat.log 2 n < 53 := Nat.log_lt_of_lt_pow hn0 h
  have hE : Int.log 2 (n : ℚ) = (Nat.log 2 n : ℤ) := Int.log_natCast 2 n
  have hlo : (2 : ℚ) ^ ((Nat.log 2 n : ℤ)) ≤ n := by
    rw [← hE]
    exact two_zpow_log_le _ hnpos
  have hhi : (n : ℚ) < (2 : ℚ) ^ ((Nat.log 2 n : ℤ) + 1) := by
    rw [← hE]
    exact lt_two_zpow_log_succ _
  have hsc : (n : ℚ) / 2 ^ ((Nat.log 2 n : ℤ) - 52) = ((n * 2 ^ (52 - Nat.log 2 n) : ℕ) : ℚ) := by
    have : ((Nat.log 2 n : ℤ) - 52) = -((52 - Nat.log 2 n : ℕ) : ℤ) := by omega
    rw [this, zpow_neg, zpow_natCast, div_inv_eq_mul]
    push_cast
    ring
  have hback : ((n * 2 ^ (52 - Nat.log 2 n) : ℕ) : ℚ) * 2 ^ ((Nat.log 2 n : ℤ) - 52) = n := by
    rw [← hsc]
    exact div_mul_cancel₀ _ (ne_of_gt (zpow_pos (by norm_num) _))
  have hr := roundPos_eval (n : ℚ) (Nat.log 2 n) (n * 2 ^ (52 - Nat.log 2 n)) hlo hhi (by omega)
    (by rw [hsc]; exact roundHalfEven_natCast _)
    (by
      rw [hback]
      have : (n : ℚ) < 2 ^ (53 : ℕ) := by exact_mod_cast h
      have h2 : (2 : ℚ) ^ (53 : ℕ) ≤ 2 ^ (1024 : ℕ) :=
        pow_le_pow_right₀ (by norm_num) (by norm_num)
      linarith)
  rw [hback] at hr
  unfold Double.round
  rw [if_neg (ne_of_gt hnpos), if_pos hnpos, hr]

/-- A positive double is at least the smallest subnormal number. -/
theorem isDouble_lower (q : ℚ) (hq : 0 < q) (hd : (Double.fin q).IsDouble) :
    (1 : ℚ) / 2 ^ (1074 : ℕ) ≤ q := by
  have hr : Double.roundPos q = Double.fin q := by
    have : Double.round q = Double.fin q := hd
    unfold Double.round at this
    rwa [if_neg (ne_of_gt hq), if_pos hq] at this
  unfold Double.roundPos at hr
  simp only [] at hr
  split_ifs at hr with hfin
  have hval : (roundHalfEven (q / 2 ^ Double.quantum q) : ℚ) * 2 ^ Double.quantum q = q := by
    injection hr
  have hn : roundHalfEven (q / 2 ^ Double.quantum q) ≠ 0 := by
    intro h0
    rw [h0] at hval
    simp at hval
    linarith
  have hn1 : (1 : ℚ) ≤ (roundHalfEven (q / 2 ^ Double.quantum q) : ℚ) := by
    exact_mod_cast Nat.one_le_iff_ne_zero.mpr hn
  have hu := quantum_pos q
  have hl := quantum_lower q
  calc (1 : ℚ) / 2 ^ (1074 : ℕ) ≤ 2 ^ Double.quantum q := hl
    _ = 1 * 2 ^ Double.quantum q := (one_mul _).symm
    _ ≤ (roundHalfEven (q / 2 ^ Double.quantum q) : ℚ) * 2 ^ Double.quantum q :=
      mul_le_mul_of_nonneg_right hn1 hu.le
    _ = q := hval

theorem Double.add_fin (a b : ℚ) : Double.fin a + Double.fin b = Double.round (a + b) := rfl

theorem Double.mul_fin (a b : ℚ) : Double.fin a * Double.fin b = Double.round (a * b) := rfl

theorem Double.fin_le_fin (a b : ℚ) : Double.fin a ≤ Double.fin b ↔ a ≤ b := by
  show Double.le (Double.fin a) (Double.fin b) = true ↔ a ≤ b
  simp [Double.le]

/-- A literal below `2 ^ 53` denotes its own value. -/
theorem double_numeral (n : ℕ) (h : n < 2 ^ 53) :
    (OfNat.ofNat n : Double) = Double.fin (n : ℚ) :=
  round_natCast n h

theorem two_lt_two_pow_1024 : (2 : ℚ) < 2 ^ (1024 : ℕ) := by
  have h : (2 : ℚ) ^ (1 : ℕ) < 2 ^ (1024 : ℕ) := pow_lt_pow_right₀ (by norm_num) (by norm_num)
  simpa using h

/-- Evaluate the rounding of a positive number `x` to the double `r`, from the
exponent `E` of `x` and the multiple `n` of the unit in the last place that
is nearest to `x`. -/
theorem round_eval (x r : ℚ) (E : ℤ) (n : ℕ) (hlo : (2 : ℚ) ^ E ≤ x)
    (hhi : x < (2 : ℚ) ^ (E + 1)) (hE : -1074 ≤ E - 52)
    (h1 : (n : ℚ) - 1 / 2 ≤ x / 2 ^ (E - 52)) (h2 : x / 2 ^ (E - 52) ≤ n + 1 / 2)
    (h3 : (x / 2 ^ (E - 52) = n - 1 / 2 ∨ x / 2 ^ (E - 52) = n + 1 / 2) → n % 2 = 0)
    (hr : (n : ℚ) * 2 ^ (E - 52) = r) (hfin : r ≤ 2) : Double.round x = Double.fin r := by
  have hx : 0 < x := lt_of_lt_of_le (zpow_pos (by norm_num) E) hlo
  have hy : 0 ≤ x / 2 ^ (E - 52) := div_nonneg hx.le (zpow_pos (by norm_num) _).le
  have hn := roundHalfEven_eq _ n hy h1 h2 h3
  have := roundPos_eval x E n hlo hhi hE hn (by rw [hr]; exact lt_of_le_of_lt hfin two_lt_two_pow_1024)
  unfold Double.round
  rw [if_neg (ne_of_gt hx), if_pos hx, this, hr]

/-! ## The topo driver: lemmas -/

theorem loggedDistances_append (a b : List Call) :
    loggedDistances (a ++ b) = loggedDistances a ++ loggedDistances b := by
  simp [loggedDistances]

theorem collapseDistances_append (a b : List Call) :
    collapseDistances (a ++ b) = collapseDistances a ++ collapseDistances b := by
  simp [collapseDistances]

theorem loggedDistances_levelCalls (d : Double) (c : Nat) : loggedDistances (levelCalls d c) = [] := by
  induction c with
  | zero => simp [levelCalls, loggedDistances, Call.asLogDistance]
  | succ c ih =>
    simp only [loggedDistances] at ih
    simp [levelCalls, loggedDistances, Call.asLogDistance, ih]

theorem collapseDistances_levelCalls (d : Double) (c : Nat) :
    collapseDistances (levelCalls d c) = List.replicate (c + 1) d := by
  induction c with
  | zero => simp [levelCalls, collapseDistances, Call.asCollapseDistance]
  | succ c ih =>
    simp only [collapseDistances] at ih
    simp [levelCalls, collapseDistances, Call.asCollapseDistance, ih, List.replicate_succ]

theorem loggedDistances_ladderCalls (ds : List Double) (cs : List Nat) (h : cs.length = ds.length) :
    loggedDistances (ladderCalls ds cs) = ds := by
  induction ds generalizing cs with
  | nil => cases cs <;> simp [ladderCalls, loggedDistances]
  | cons d ds ih =>
    cases cs with
    | nil => simp at h
    | cons c cs =>
      have h1 : cs.length = ds.length := by simpa using h
      have h2 : ladderCalls (d :: ds) (c :: cs) =
          [Call.logDistance d] ++ (levelCalls d c ++ ladderCalls ds cs) := rfl
      rw [h2, loggedDistances_append, loggedDistances_append, loggedDistances_levelCalls, ih cs h1]
      simp [loggedDistances, Call.asLogDistance]

theorem collapseDistances_ladderCalls (ds : List Double) (cs : List Nat) :
    collapseDistances (ladderCalls ds cs) = levelRuns ds cs := by
  induction ds generalizing cs with
  | nil => cases cs <;> simp [ladderCalls, levelRuns, collapseDistances]
  | cons d ds ih =>
    cases cs with
    | nil => simp [ladderCalls, levelRuns, collapseDistances]
    | cons c cs =>
      have h2 : ladderCalls (d :: ds) (c :: cs) =
          [Call.logDistance d] ++ (levelCalls d c ++ ladderCalls ds cs) := rfl
      rw [h2, collapseDistances_append, collapseDistances_append, collapseDistances_levelCalls,
        ih cs]
      simp [collapseDistances, Call.asCollapseDistance, levelRuns]

/-- More fuel does not change the result of the inner loop. -/
theorem collapseLoop_mono (res : Nat → Bool) (fuel : Nat) :
    ∀ (d : Double) (s s' : Run), collapseLoop res fuel d s = some s' →
      ∀ fuel', fuel ≤ fuel' → collapseLoop res fuel' d s = some s' := by
  induction fuel with
  | zero => intro d s s' h; simp [collapseLoop] at h
  | succ fuel ih =>
    intro d s s' h fuel' hle
    obtain ⟨k, rfl⟩ : ∃ k, fuel' = k + 1 := ⟨fuel' - 1, by omega⟩
    simp only [collapseLoop] at h ⊢
    by_cases hr : (s.collapseShrdSegs res d).1 = true
    · simp only [hr, if_true] at h ⊢
      exact ih _ _ _ h k (by omega)
    · simp only [hr] at h ⊢
      exact h

/-- More fuel does not change the result of the ladder loop. -/
theorem ladderLoop_mono (res : Nat → Bool) (m step : Double) (fuel : Nat) :
    ∀ (d : Double) (s s' : Run), ladderLoop res m step fuel d s = some s' →
      ∀ fuel', fuel ≤ fuel' → ladderLoop res m step fuel' d s = some s' := by
  induction fuel with
  | zero => intro d s s' h; simp [ladderLoop] at h
  | succ fuel ih =>
    intro d s s' h fuel' hle
    obtain ⟨k, rfl⟩ : ∃ k, fuel' = k + 1 := ⟨fuel' - 1, by omega⟩
    simp only [ladderLoop] at h ⊢
    by_cases hc : d ≤ m * 15
    · simp only [hc, if_true] at h ⊢
      cases h1 : collapseLoop res fuel d (s.call (Call.logDistance d)) with
      | none => simp [h1] at h
      | some s1 =>
        simp only [h1] at h
        rw [collapseLoop_mono res fuel d _ s1 h1 k (by omega)]
        exact ih _ _ _ h k (by omega)
    · simp only [hc, if_false] at h ⊢
      exact h

/-- The inner loop ends at the first call that reports no collapse; its calls
are those of `levelCalls`. -/
theorem collapseLoop_of_false (res : Nat → Bool) (d : Double) (k : Nat) :
    ∀ s : Run, res (s.collapses + k) = false →
      ∃ fuel c, collapseLoop res fuel d s =
        some { trace := s.trace ++ levelCalls d c, collapses := s.collapses + c + 1 } := by
  induction k with
  | zero =>
    intro s h
    refine ⟨1, 0, ?_⟩
    simp only [Nat.add_zero] at h
    simp [collapseLoop, Run.collapseShrdSegs, h, levelCalls]
  | succ k ih =>
    intro s h
    by_cases hr : res s.collapses = true
    · obtain ⟨fuel, c, hc⟩ := ih
        { trace := s.trace ++ [Call.collapseShrdSegs d, Call.removeNodeArtifacts,
            Call.removeEdgeArtifacts], collapses := s.collapses + 1 }
        (by simpa [Nat.add_assoc, Nat.add_comm 1 k] using h)
      refine ⟨fuel + 1, c + 1, ?_⟩
      simp only [collapseLoop, Run.collapseShrdSegs, hr, if_true, Run.call, List.append_assoc,
        List.singleton_append, List.cons_append, List.nil_append] at hc ⊢
      rw [hc]
      simp [levelCalls, Nat.add_assoc, Nat.add_comm 1 c]
    · refine ⟨1, 0, ?_⟩
      simp [collapseLoop, Run.collapseShrdSegs, hr, levelCalls]

/-- One pass of the ladder loop when `collapseShrdSegs` reports no collapse. -/
theorem ladderLoop_quiet_step (m step d : Double) (fuel : Nat) (s : Run) (h : d ≤ m * 15) :
    ladderLoop (fun _ => false) m step (fuel + 2) d s =
      ladderLoop (fun _ => false) m step (fuel + 1) (d + step)
        { trace := s.trace ++ [Call.logDistance d, Call.collapseShrdSegs d],
          collapses := s.collapses + 1 } := by
  have h1 : ladderLoop (fun _ => false) m step (fuel + 2) d s =
      if d ≤ m * 15 then
        match collapseLoop (fun _ => false) (fuel + 1) d (s.call (Call.logDistance d)) with
        | none => none
        | some s1 => ladderLoop (fun _ => false) m step (fuel + 1) (d + step) s1
      else some s := rfl
  have h2 : collapseLoop (fun _ => false) (fuel + 1) d (s.call (Call.logDistance d)) =
      some { trace := s.trace ++ [Call.logDistance d, Call.collapseShrdSegs d],
             collapses := s.collapses + 1 } := by
    simp [collapseLoop, Run.collapseShrdSegs, Run.call]
  rw [h1, if_pos h, h2]

/-- The ladder loop ends when its condition is false. -/
theorem ladderLoop_stop (res : Nat → Bool) (m step d : Double) (fuel : Nat) (s : Run)
    (h : ¬ d ≤ m * 15) : ladderLoop res m step (fuel + 1) d s = some s := by
  simp only [ladderLoop, if_neg h]

/-- The inner loop does not end when every call reports a collapse. -/
theorem collapseLoop_all_true (fuel : Nat) :
    ∀ (d : Double) (s : Run), collapseLoop (fun _ => true) fuel d s = none := by
  induction fuel with
  | zero => intro d s; rfl
  | succ fuel ih =>
    intro d s
    simp only [collapseLoop, Run.collapseShrdSegs, if_true]
    exact ih _ _

/-- The ladder loop does not leave its first level when every call of
`collapseShrdSegs` reports a collapse. -/
theorem ladderLoop_all_true (m step d : Double) (h : d ≤ m * 15) (fuel : Nat) (s : Run) :
    ladderLoop (fun _ => true) m step fuel d s = none := by
  cases fuel with
  | zero => rfl
  | succ fuel =>
    simp only [ladderLoop, if_pos h, collapseLoop_all_true]

/-- The levels `k·d0, (k+1)·d0, …` with `j` entries, when the multiples of
`d0` are doubles. -/
theorem ladderLoop_levels (res : Nat → Bool) (q : ℚ) (hq : 0 < q)
    (hexact : ∀ k : ℕ, 1 ≤ k → k ≤ 16 → Double.round ((k : ℚ) * q) = Double.fin ((k : ℚ) * q))
    (hres : ∀ n, ∃ m, n ≤ m ∧ res m = false) (j : Nat) :
    ∀ (k : Nat) (s : Run), 1 ≤ k → k + j = 16 →
      ∃ fuel s' cs, cs.length = j ∧
        ladderLoop res (Double.fin q) (Double.fin q) fuel (Double.fin ((k : ℚ) * q)) s =
          some s' ∧
        s'.trace = s.trace ++
          ladderCalls ((List.range j).map (fun i => Double.fin (((k + i : Nat) : ℚ) * q))) cs := by
  have hB : Double.fin q * 15 = Double.fin (15 * q) := by
    rw [double_numeral 15 (by norm_num), Double.mul_fin, mul_comm]
    exact_mod_cast hexact 15 (by norm_num) (by norm_num)
  induction j with
  | zero =>
    intro k s _ hk
    have hk16 : k = 16 := by omega
    subst hk16
    refine ⟨1, s, [], rfl, ?_, by simp [ladderCalls]⟩
    apply ladderLoop_stop
    rw [hB, Double.fin_le_fin]
    push_cast
    intro h
    linarith
  | succ j ih =>
    intro k s hk1 hk
    have hle : Double.fin ((k : ℚ) * q) ≤ Double.fin q * 15 := by
      rw [hB, Double.fin_le_fin]
      have : (k : ℚ) ≤ 15 := by exact_mod_cast (by omega : k ≤ 15)
      exact mul_le_mul_of_nonneg_right this hq.le
    obtain ⟨m, hm1, hm2⟩ :=
      hres (s.call (Call.logDistance (Double.fin ((k : ℚ) * q)))).collapses
    obtain ⟨f1, c, hc⟩ := collapseLoop_of_false res (Double.fin ((k : ℚ) * q))
      (m - (s.call (Call.logDistance (Double.fin ((k : ℚ) * q)))).collapses)
      (s.call (Call.logDistance (Double.fin ((k : ℚ) * q))))
      (by rw [Nat.add_sub_cancel' hm1]; exact hm2)
    obtain ⟨f2, s', cs, hlen, hrun, htr⟩ := ih (k + 1) _ (by omega) (by omega)
    have hnext : Double.fin ((k : ℚ) * q) + Double.fin q = Double.fin (((k + 1 : Nat) : ℚ) * q) := by
      rw [Double.add_fin]
      have h := hexact (k + 1) (by omega) (by omega)
      have e : (k : ℚ) * q + q = ((k + 1 : Nat) : ℚ) * q := by
        push_cast
        ring
      rw [e]
      exact h
    refine ⟨max f1 f2 + 1, s', c :: cs, by simp [hlen], ?_, ?_⟩
    · simp only [ladderLoop, if_pos hle]
      rw [collapseLoop_mono res f1 _ _ _ hc (max f1 f2) (le_max_left _ _)]
      simp only []
      rw [hnext]
      exact ladderLoop_mono res _ _ f2 _ _ _ hrun (max f1 f2) (le_max_right _ _)
    · rw [htr, List.range_succ_eq_map]
      simp only [Run.call, List.map_cons, List.map_map, ladderCalls, List.append_assoc,
        List.singleton_append, Nat.add_zero]
      have hmap : List.map ((fun i => Double.fin (((k + i : Nat) : ℚ) * q)) ∘ Nat.succ)
            (List.range j) =
          List.map (fun i => Double.fin (((k + 1 + i : Nat) : ℚ) * q)) (List.range j) := by
        apply List.map_congr_left
        intro i _
        simp [Nat.add_assoc, Nat.add_comm 1 i]
      rw [hmap]
      simp

theorem ladderLevels_eq (q : ℚ) :
    (List.range 15).map (fun i => Double.fin (((1 + i : Nat) : ℚ) * q)) = ladderLevels q := by
  simp [ladderLevels, List.range_succ]
  norm_num

/-- The calls the inner loop adds are calls of the ladder. -/
theorem collapseLoop_trace (res : Nat → Bool) (fuel : Nat) :
    ∀ (d : Double) (s s' : Run), collapseLoop res fuel d s = some s' →
      ∃ ext, s'.trace = s.trace ++ ext ∧ ∀ c ∈ ext, c.inLadder = true := by
  induction fuel with
  | zero => intro d s s' h; simp [collapseLoop] at h
  | succ fuel ih =>
    intro d s s' h
    simp only [collapseLoop] at h
    by_cases hr : (s.collapseShrdSegs res d).1 = true
    · simp only [hr, if_true] at h
      obtain ⟨ext, h1, h2⟩ := ih _ _ _ h
      refine ⟨[Call.collapseShrdSegs d, Call.removeNodeArtifacts, Call.removeEdgeArtifacts] ++ ext,
        ?_, ?_⟩
      · rw [h1]
        simp [Run.call, Run.collapseShrdSegs]
      · intro c hc
        rcases List.mem_append.mp hc with hc | hc
        · simp only [List.mem_cons, List.mem_singleton, List.not_mem_nil, or_false] at hc
          rcases hc with rfl | rfl | rfl <;> rfl
        · exact h2 c hc
    · simp only [hr] at h
      simp only [Bool.false_eq_true, if_false, Option.some.injEq] at h
      subst h
      refine ⟨[Call.collapseShrdSegs d], rfl, ?_⟩
      intro c hc
      simp only [List.mem_singleton] at hc
      subst hc
      rfl

/-- The calls the ladder loop adds are calls of the ladder. -/
theorem ladderLoop_trace (res : Nat → Bool) (m step : Double) (fuel : Nat) :
    ∀ (d : Double) (s s' : Run), ladderLoop res m step fuel d s = some s' →
      ∃ ext, s'.trace = s.trace ++ ext ∧ ∀ c ∈ ext, c.inLadder = true := by
  induction fuel with
  | zero => intro d s s' h; simp [ladderLoop] at h
  | succ fuel ih =>
    intro d s s' h
    simp only [ladderLoop] at h
    by_cases hc : d ≤ m * 15
    · simp only [hc, if_true] at h
      cases h1 : collapseLoop res fuel d (s.call (Call.logDistance d)) with
      | none => simp [h1] at h
      | some s1 =>
        simp only [h1] at h
        obtain ⟨ext1, h2, h3⟩ := collapseLoop_trace res fuel d _ s1 h1
        obtain ⟨ext2, h4, h5⟩ := ih _ _ _ h
        refine ⟨[Call.logDistance d] ++ ext1 ++ ext2, ?_, ?_⟩
        · rw [h4, h2]
          simp [Run.call]
        · intro c hc
          rcases List.mem_append.mp hc with hc | hc
          · rcases List.mem_append.mp hc with hc | hc
            · simp only [List.mem_singleton] at hc
              subst hc
              rfl
            · exact h3 c hc
          · exact h5 c hc
    · simp only [hc, if_false, Option.some.injEq] at h
      subst h
      exact ⟨[], by simp, by simp⟩

theorem round_small (k : ℕ) (hk : k < 2 ^ 53) (x : ℚ) (hx : x = k) :
    Double.round x = Double.fin x := by
  subst hx
  exact round_natCast k hk

set_option maxRecDepth 100000 in
/-- The run of `main` with `cfg.maxAggrDistance = 1` and no collapse. -/
theorem main_quiet : main (fun _ => false) 1 16 = some quietTrace := by
  have n1 : (1 : Double) = Double.fin 1 := round_small 1 (by norm_num) 1 (by norm_num)
  have n2 : (2 : Double) = Double.fin 2 := round_small 2 (by norm_num) 2 (by norm_num)
  have n3 : (3 : Double) = Double.fin 3 := round_small 3 (by norm_num) 3 (by norm_num)
  have n4 : (4 : Double) = Double.fin 4 := round_small 4 (by norm_num) 4 (by norm_num)
  have n5 : (5 : Double) = Double.fin 5 := round_small 5 (by norm_num) 5 (by norm_num)
  have n6 : (6 : Double) = Double.fin 6 := round_small 6 (by norm_num) 6 (by norm_num)
  have n7 : (7 : Double) = Double.fin 7 := round_small 7 (by norm_num) 7 (by norm_num)
  have n8 : (8 : Double) = Double.fin 8 := round_small 8 (by norm_num) 8 (by norm_num)
  have n9 : (9 : Double) = Double.fin 9 := round_small 9 (by norm_num) 9 (by norm_num)
  have n10 : (10 : Double) = Double.fin 10 := round_small 10 (by norm_num) 10 (by norm_num)
  have n11 : (11 : Double) = Double.fin 11 := round_small 11 (by norm_num) 11 (by norm_num)
  have n12 : (12 : Double) = Double.fin 12 := round_small 12 (by norm_num) 12 (by norm_num)
  have n13 : (13 : Double) = Double.fin 13 := round_small 13 (by norm_num) 13 (by norm_num)
  have n14 : (14 : Double) = Double.fin 14 := round_small 14 (by norm_num) 14 (by norm_num)
  have n15 : (15 : Double) = Double.fin 15 := round_small 15 (by norm_num) 15 (by norm_num)
  have hB : Double.fin 1 * Double.fin 15 = Double.fin 15 := by
    rw [Double.mul_fin]
    norm_num
    exact round_small 15 (by norm_num) 15 (by norm_num)
  have a1 : Double.fin 1 + Double.fin 1 = Double.fin 2 := by
    rw [Double.add_fin]
    norm_num
    exact round_small 2 (by norm_num) 2 (by norm_num)
  have a2 : Double.fin 2 + Double.fin 1 = Double.fin 3 := by
    rw [Double.add_fin]
    norm_num
    exact round_small 3 (by norm_num) 3 (by norm_num)
  have a3 : Double.fin 3 + Double.fin 1 = Double.fin 4 := by
    rw [Double.add_fin]
    norm_num
    exact round_small 4 (by norm_num) 4 (by norm_num)
  have a4 : Double.fin 4 + Double.fin 1 = Double.fin 5 := by
    rw [Double.add_fin]
    norm_num
    exact round_small 5 (by norm_num) 5 (by norm_num)
  have a5 : Double.fin 5 + Double.fin 1 = Double.fin 6 := by
    rw [Double.add_fin]
    norm_num
    exact round_small 6 (by norm_num) 6 (by norm_num)
  have a6 : Double.fin 6 + Double.fin 1 = Double.fin 7 := by
    rw [Double.add_fin]
    norm_num
    exact round_small 7 (by norm_num) 7 (by norm_num)
  have a7 : Double.fin 7 + Double.fin 1 = Double.fin 8 := by
    rw [Double.add_fin]
    norm_num
    exact round_small 8 (by norm_num) 8 (by norm_num)
  have a8 : Double.fin 8 + Double.fin 1 = Double.fin 9 := by
    rw [Double.add_fin]
    norm_num
    exact round_small 9 (by norm_num) 9 (by norm_num)
  have a9 : Double.fin 9 + Double.fin 1 = Double.fin 10 := by
    rw [Double.add_fin]
    norm_num
    exact round_small 10 (by norm_num) 10 (by norm_num)
  have a10 : Double.fin 10 + Double.fin 1 = Double.fin 11 := by
    rw [Double.add_fin]
    norm_num
    exact round_small 11 (by norm_num) 11 (by norm_num)
  have a11 : Double.fin 11 + Double.fin 1 = Double.fin 12 := by
    rw [Double.add_fin]
    norm_num
    exact round_small 12 (by norm_num) 12 (by norm_num)
  have a12 : Double.fin 12 + Double.fin 1 = Double.fin 13 := by
    rw [Double.add_fin]
    norm_num
    exact round_small 13 (by norm_num) 13 (by norm_num)
  have a13 : Double.fin 13 + Double.fin 1 = Double.fin 14 := by
    rw [Double.add_fin]
    norm_num
    exact round_small 14 (by norm_num) 14 (by norm_num)
  have a14 : Double.fin 14 + Double.fin 1 = Double.fin 15 := by
    rw [Double.add_fin]
    norm_num
    exact round_small 15 (by norm_num) 15 (by norm_num)
  have a15 : Double.fin 15 + Double.fin 1 = Double.fin 16 := by
    rw [Double.add_fin]
    norm_num
    exact round_small 16 (by norm_num) 16 (by norm_num)
  have l1 : Double.fin 1 ≤ Double.fin 1 * Double.fin 15 := by
    rw [hB]
    exact (Double.fin_le_fin _ _).mpr (by norm_num)
  have l2 : Double.fin 2 ≤ Double.fin 1 * Double.fin 15 := by
    rw [hB]
    exact (Double.fin_le_fin _ _).mpr (by norm_num)
  have l3 : Double.fin 3 ≤ Double.fin 1 * Double.fin 15 := by
    rw [hB]
    exact (Double.fin_le_fin _ _).mpr (by norm_num)
  have l4 : Double.fin 4 ≤ Double.fin 1 * Double.fin 15 := by
    rw [hB]
    exact (Double.fin_le_fin _ _).mpr (by norm_num)
  have l5 : Double.fin 5 ≤ Double.fin 1 * Double.fin 15 := by
    rw [hB]
    exact (Double.fin_le_fin _ _).mpr (by norm_num)
  have l6 : Double.fin 6 ≤ Double.fin 1 * Double.fin 15 := by
    rw [hB]
    exact (Double.fin_le_fin _ _).mpr (by norm_num)
  have l7 : Double.fin 7 ≤ Double.fin 1 * Double.fin 15 := by
    rw [hB]
    exact (Double.fin_le_fin _ _).mpr (by norm_num)
  have l8 : Double.fin 8 ≤ Double.fin 1 * Double.fin 15 := by
    rw [hB]
    exact (Double.fin_le_fin _ _).mpr (by norm_num)
  have l9 : Double.fin 9 ≤ Double.fin 1 * Double.fin 15 := by
    rw [hB]
    exact (Double.fin_le_fin _ _).mpr (by norm_num)
  have l10 : Double.fin 10 ≤ Double.fin 1 * Double.fin 15 := by
    rw [hB]
    exact (Double.fin_le_fin _ _).mpr (by norm_num)
  have l11 : Double.fin 11 ≤ Double.fin 1 * Double.fin 15 := by
    rw [hB]
    exact (Double.fin_le_fin _ _).mpr (by norm_num)
  have l12 : Double.fin 12 ≤ Double.fin 1 * Double.fin 15 := by
    rw [hB]
    exact (Double.fin_le_fin _ _).mpr (by norm_num)
  have l13 : Double.fin 13 ≤ Double.fin 1 * Double.fin 15 := by
    rw [hB]
    exact (Double.fin_le_fin _ _).mpr (by norm_num)
  have l14 : Double.fin 14 ≤ Double.fin 1 * Double.fin 15 := by
    rw [hB]
    exact (Double.fin_le_fin _ _).mpr (by norm_num)
  have l15 : Double.fin 15 ≤ Double.fin 1 * Double.fin 15 := by
    rw [hB]
    exact (Double.fin_le_fin _ _).mpr (by norm_num)
  have l16 : ¬ Double.fin 16 ≤ Double.fin 1 * Double.fin 15 := by
    rw [hB, Double.fin_le_fin]
    norm_num
  simp only [main, mainPrologue, mainEpilogue, ladderLoop, collapseLoop, Run.call,
    Run.collapseShrdSegs, Run.start, quietTrace, n1, n2, n3, n4, n5, n6, n7, n8, n9, n10, n11, n12, n13, n14, n15, a1, a2, a3, a4, a5, a6, a7, a8, a9, a10, a11, a12, a13, a14, a15, l1, l2, l3, l4, l5, l6, l7, l8, l9, l10, l11, l12, l13, l14, l15, l16,
    if_true, if_false, Bool.false_eq_true, List.nil_append, List.append_assoc, List.cons_append,
    List.singleton_append]

/-- The bound of the ladder loop for `cfg.maxAggrDistance = 0.1` is `1.5`. -/
theorem tenth_bound : Double.fin tenth * 15 = Double.fin (3 / 2) := by
  rw [double_numeral 15 (by norm_num), Double.mul_fin]
  apply round_eval _ _ (0) 6755399441055744
  · norm_num [tenth]
  · norm_num [tenth]
  · norm_num
  · norm_num [tenth]
  · norm_num [tenth]
  · intro _; norm_num
  · norm_num
  · norm_num

/-- The sums `d + step` of the ladder loop for `cfg.maxAggrDistance = 0.1`. -/
theorem tenth_steps :
    Double.fin (3602879701896397 / 36028797018963968) + Double.fin tenth = Double.fin (3602879701896397 / 18014398509481984) ∧
      Double.fin (3602879701896397 / 18014398509481984) + Double.fin tenth = Double.fin (1351079888211149 / 4503599627370496) ∧
      Double.fin (1351079888211149 / 4503599627370496) + Double.fin tenth = Double.fin (3602879701896397 / 9007199254740992) ∧
      Double.fin (3602879701896397 / 9007199254740992) + Double.fin tenth = Double.fin (1 / 2) ∧
      Double.fin (1 / 2) + Double.fin tenth = Double.fin (5404319552844595 / 9007199254740992) ∧
      Double.fin (5404319552844595 / 9007199254740992) + Double.fin tenth = Double.fin (3152519739159347 / 4503599627370496) ∧
      Double.fin (3152519739159347 / 4503599627370496) + Double.fin tenth = Double.fin (7205759403792793 / 9007199254740992) ∧
      Double.fin (7205759403792793 / 9007199254740992) + Double.fin tenth = Double.fin (2026619832316723 / 2251799813685248) ∧
      Double.fin (2026619832316723 / 2251799813685248) + Double.fin tenth = Double.fin (9007199254740991 / 9007199254740992) ∧
      Double.fin (9007199254740991 / 9007199254740992) + Double.fin tenth = Double.fin (4953959590107545 / 4503599627370496) ∧
      Double.fin (4953959590107545 / 4503599627370496) + Double.fin tenth = Double.fin (5404319552844595 / 4503599627370496) ∧
      Double.fin (5404319552844595 / 4503599627370496) + Double.fin tenth = Double.fin (5854679515581645 / 4503599627370496) ∧
      Double.fin (5854679515581645 / 4503599627370496) + Double.fin tenth = Double.fin (6305039478318695 / 4503599627370496) ∧
      Double.fin (6305039478318695 / 4503599627370496) + Double.fin tenth = Double.fin (6755399441055745 / 4503599627370496) := by
  refine ⟨?_, ?_, ?_, ?_, ?_, ?_, ?_, ?_, ?_, ?_, ?_, ?_, ?_, ?_⟩
  · rw [Double.add_fin]
    apply round_eval _ _ (-3) 7205759403792794
    · norm_num [tenth]
    · norm_num [tenth]
    · norm_num
    · norm_num [tenth]
    · norm_num [tenth]
    · intro _; norm_num
    · norm_num
    · norm_num
  · rw [Double.add_fin]
    apply round_eval _ _ (-2) 5404319552844596
    · norm_num [tenth]
    · norm_num [tenth]
    · norm_num
    · norm_num [tenth]
    · norm_num [tenth]
    · intro _; norm_num
    · norm_num
    · norm_num
  · rw [Double.add_fin]
    apply round_eval _ _ (-2) 7205759403792794
    · norm_num [tenth]
    · norm_num [tenth]
    · norm_num
    · norm_num [tenth]
    · norm_num [tenth]
    · intro _; norm_num
    · norm_num
    · norm_num
  · rw [Double.add_fin]
    apply round_eval _ _ (-1) 4503599627370496
    · norm_num [tenth]
    · norm_num [tenth]
    · norm_num
    · norm_num [tenth]
    · norm_num [tenth]
    · intro _; norm_num
    · norm_num
    · norm_num
  · rw [Double.add_fin]
    apply round_eval _ _ (-1) 5404319552844595
    · norm_num [tenth]
    · norm_num [tenth]
    · norm_num
    · norm_num [tenth]
    · norm_num [tenth]
    · rintro (h | h) <;> norm_num [tenth] at h
    · norm_num
    · norm_num
  · rw [Double.add_fin]
    apply round_eval _ _ (-1) 6305039478318694
    · norm_num [tenth]
    · norm_num [tenth]
    · norm_num
    · norm_num [tenth]
    · norm_num [tenth]
    · intro _; norm_num
    · norm_num
    · norm_num
  · rw [Double.add_fin]
    apply round_eval _ _ (-1) 7205759403792793
    · norm_num [tenth]
    · norm_num [tenth]
    · norm_num
    · norm_num [tenth]
    · norm_num [tenth]
    · rintro (h | h) <;> norm_num [tenth] at h
    · norm_num
    · norm_num
  · rw [Double.add_fin]
    apply round_eval _ _ (-1) 8106479329266892
    · norm_num [tenth]
    · norm_num [tenth]
    · norm_num
    · norm_num [tenth]
    · norm_num [tenth]
    · intro _; norm_num
    · norm_num
    · norm_num
  · rw [Double.add_fin]
    apply round_eval _ _ (-1) 9007199254740991
    · norm_num [tenth]
    · norm_num [tenth]
    · norm_num
    · norm_num [tenth]
    · norm_num [tenth]
    · rintro (h | h) <;> norm_num [tenth] at h
    · norm_num
    · norm_num
  · rw [Double.add_fin]
    apply round_eval _ _ (0) 4953959590107545
    · norm_num [tenth]
    · norm_num [tenth]
    · norm_num
    · norm_num [tenth]
    · norm_num [tenth]
    · rintro (h | h) <;> norm_num [tenth] at h
    · norm_num
    · norm_num
  · rw [Double.add_fin]
    apply round_eval _ _ (0) 5404319552844595
    · norm_num [tenth]
    · norm_num [tenth]
    · norm_num
    · norm_num [tenth]
    · norm_num [tenth]
    · rintro (h | h) <;> norm_num [tenth] at h
    · norm_num
    · norm_num
  · rw [Double.add_fin]
    apply round_eval _ _ (0) 5854679515581645
    · norm_num [tenth]
    · norm_num [tenth]
    · norm_num
    · norm_num [tenth]
    · norm_num [tenth]
    · rintro (h | h) <;> norm_num [tenth] at h
    · norm_num
    · norm_num
  · rw [Double.add_fin]
    apply round_eval _ _ (0) 6305039478318695
    · norm_num [tenth]
    · norm_num [tenth]
    · norm_num
    · norm_num [tenth]
    · norm_num [tenth]
    · rintro (h | h) <;> norm_num [tenth] at h
    · norm_num
    · norm_num
  · rw [Double.add_fin]
    apply round_eval _ _ (0) 6755399441055745
    · norm_num [tenth]
    · norm_num [tenth]
    · norm_num
    · norm_num [tenth]
    · norm_num [tenth]
    · rintro (h | h) <;> norm_num [tenth] at h
    · norm_num
    · norm_num

set_option maxRecDepth 100000 in
/-- The run of the ladder loop with `cfg.maxAggrDistance = 0.1` and no
collapse: 14 levels. -/
theorem tenth_run :
    ladderLoop (fun _ => false) (Double.fin tenth) (Double.fin tenth) 16 (Double.fin tenth)
        Run.start =
      some { trace := ladderCalls tenthLevels [0, 0, 0, 0, 0, 0, 0, 0, 0, 0, 0, 0, 0, 0],
             collapses := 14 } := by
  have hB := tenth_bound
  obtain ⟨a1, a2, a3, a4, a5, a6, a7, a8, a9, a10, a11, a12, a13, a14⟩ := tenth_steps
  have l1 : Double.fin (3602879701896397 / 36028797018963968) ≤ Double.fin (3 / 2) :=
    (Double.fin_le_fin _ _).mpr (by norm_num)
  have l2 : Double.fin (3602879701896397 / 18014398509481984) ≤ Double.fin (3 / 2) :=
    (Double.fin_le_fin _ _).mpr (by norm_num)
  have l3 : Double.fin (1351079888211149 / 4503599627370496) ≤ Double.fin (3 / 2) :=
    (Double.fin_le_fin _ _).mpr (by norm_num)
  have l4 : Double.fin (3602879701896397 / 9007199254740992) ≤ Double.fin (3 / 2) :=
    (Double.fin_le_fin _ _).mpr (by norm_num)
  have l5 : Double.fin (1 / 2) ≤ Double.fin (3 / 2) :=
    (Double.fin_le_fin _ _).mpr (by norm_num)
  have l6 : Double.fin (5404319552844595 / 9007199254740992) ≤ Double.fin (3 / 2) :=
    (Double.fin_le_fin _ _).mpr (by norm_num)
  have l7 : Double.fin (3152519739159347 / 4503599627370496) ≤ Double.fin (3 / 2) :=
    (Double.fin_le_fin _ _).mpr (by norm_num)
  have l8 : Double.fin (7205759403792793 / 9007199254740992) ≤ Double.fin (3 / 2) :=
    (Double.fin_le_fin _ _).mpr (by norm_num)
  have l9 : Double.fin (2026619832316723 / 2251799813685248) ≤ Double.fin (3 / 2) :=
    (Double.fin_le_fin _ _).mpr (by norm_num)
  have l10 : Double.fin (9007199254740991 / 9007199254740992) ≤ Double.fin (3 / 2) :=
    (Double.fin_le_fin _ _).mpr (by norm_num)
  have l11 : Double.fin (4953959590107545 / 4503599627370496) ≤ Double.fin (3 / 2) :=
    (Double.fin_le_fin _ _).mpr (by norm_num)
  have l12 : Double.fin (5404319552844595 / 4503599627370496) ≤ Double.fin (3 / 2) :=
    (Double.fin_le_fin _ _).mpr (by norm_num)
  have l13 : Double.fin (5854679515581645 / 4503599627370496) ≤ Double.fin (3 / 2) :=
    (Double.fin_le_fin _ _).mpr (by norm_num)
  have l14 : Double.fin (6305039478318695 / 4503599627370496) ≤ Double.fin (3 / 2) :=
    (Double.fin_le_fin _ _).mpr (by norm_num)
  have l15 : ¬ Double.fin (6755399441055745 / 4503599627370496) ≤ Double.fin (3 / 2) := by
    rw [Double.fin_le_fin]
    norm_num
  simp only [tenth] at hB a1 a2 a3 a4 a5 a6 a7 a8 a9 a10 a11 a12 a13 a14
  simp only [tenth, tenthLevels, ladderCalls, levelCalls, ladderLoop, collapseLoop, Run.call,
    Run.collapseShrdSegs, Run.start, hB, a1, a2, a3, a4, a5, a6, a7, a8, a9, a10, a11, a12, a13, a14, l1, l2, l3, l4, l5, l6, l7, l8, l9, l10, l11, l12, l13, l14, l15,
    if_true, if_false, Bool.false_eq_true, List.nil_append, List.append_assoc, List.cons_append,
    List.singleton_append, List.append_nil]

/-! ## The topo driver: the claims -/

/-- C5 fails as stated, in two ways.  With `cfg.maxAggrDistance = 1` and a
`collapseShrdSegs` that reports a collapse on every call, the ladder loop
never leaves its first level.  With `cfg.maxAggrDistance = 0.1` (the double
nearest to it) and no collapse at all, the sums `d += step` are rounded, the
fifteenth value of `d` is `1.5000000000000002`, above the bound
`0.1 * 15 = 1.5`, and the loop body runs 14 times only. -/
theorem ladder_levels_fail :
    (¬ ∃ fuel s, ladderLoop (fun _ => true) 1 1 fuel 1 Run.start = some s) ∧
      Double.round (1 / 10) = Double.fin tenth ∧
      ∃ s, ladderLoop (fun _ => false) (Double.fin tenth) (Double.fin tenth) 16
            (Double.fin tenth) Run.start = some s ∧
        loggedDistances s.trace = tenthLevels ∧ (loggedDistances s.trace).length = 14 := by
  refine ⟨?_, ?_, _, tenth_run, ?_, ?_⟩
  · rintro ⟨fuel, s, h⟩
    have hle : (1 : Double) ≤ 1 * 15 := by
      rw [double_numeral 1 (by norm_num), double_numeral 15 (by norm_num), Double.mul_fin]
      have h15 : Double.round (((1 : ℕ) : ℚ) * ((15 : ℕ) : ℚ)) = Double.fin 15 := by
        rw [round_small 15 (by norm_num) (((1 : ℕ) : ℚ) * ((15 : ℕ) : ℚ)) (by norm_num)]
        norm_num
      rw [h15, Double.fin_le_fin]
      norm_num
    rw [ladderLoop_all_true 1 1 1 hle] at h
    exact Option.noConfusion h
  · apply round_eval (1 / 10) tenth (-4) 7205759403792794
    · norm_num
    · norm_num
    · norm_num
    · norm_num
    · norm_num
    · rintro (h | h) <;> norm_num at h
    · norm_num [tenth]
    · norm_num [tenth]
  · exact loggedDistances_ladderCalls tenthLevels _ rfl
  · rw [show loggedDistances
        (ladderCalls tenthLevels [0, 0, 0, 0, 0, 0, 0, 0, 0, 0, 0, 0, 0, 0]) = tenthLevels from
      loggedDistances_ladderCalls tenthLevels _ rfl]
    rfl

/-- C5, as the code has it: for every `d0 > 0` whose multiples `k·d0`,
`k = 1, …, 16`, are doubles (so that the sums `d += step` and the product
`d0 * 15` of the loop are exact) and every sequence of results of
`collapseShrdSegs` on which each inner loop ends, the ladder loop ends, its
body runs exactly 15 times, with `d = d0, 2·d0, …, 15·d0` in this order, and
`collapseShrdSegs` is called with each of these distances at least once
(`c + 1` times at a level with `c` collapses) and with no other distance. -/
theorem ladder_runs_fifteen_levels (res : Nat → Bool) (d0 : ℚ) (hd0 : 0 < d0)
    (hexact : ∀ k : ℕ, 1 ≤ k → k ≤ 16 → (Double.fin ((k : ℚ) * d0)).IsDouble)
    (hres : ∀ n, ∃ m, n ≤ m ∧ res m = false) (s : Run) :
    ∃ fuel s' cs, ladderLoop res (Double.fin d0) (Double.fin d0) fuel (Double.fin d0) s =
        some s' ∧ cs.length = 15 ∧
      s'.trace = s.trace ++ ladderCalls (ladderLevels d0) cs ∧
      loggedDistances s'.trace = loggedDistances s.trace ++ ladderLevels d0 ∧
      collapseDistances s'.trace =
        collapseDistances s.trace ++ levelRuns (ladderLevels d0) cs := by
  obtain ⟨fuel, s', cs, hlen, hrun, htr⟩ :=
    ladderLoop_levels res d0 hd0 hexact hres 15 1 s (le_refl 1) rfl
  rw [ladderLevels_eq] at htr
  simp only [Nat.cast_one, one_mul] at hrun
  refine ⟨fuel, s', cs, hrun, hlen, htr, ?_, ?_⟩
  · rw [htr, loggedDistances_append, loggedDistances_ladderCalls _ _ (by simp [hlen, ladderLevels])]
  · rw [htr, collapseDistances_append, collapseDistances_ladderCalls]

/-- Witness for C5: `d0 = 1` with a `collapseShrdSegs` that never reports a
collapse. -/
theorem ladder_runs_fifteen_levels_witness :
    ∃ fuel s' cs, ladderLoop (fun _ => false) (Double.fin 1) (Double.fin 1) fuel (Double.fin 1)
        Run.start = some s' ∧ cs.length = 15 ∧
      s'.trace = Run.start.trace ++ ladderCalls (ladderLevels 1) cs ∧
      loggedDistances s'.trace = loggedDistances Run.start.trace ++ ladderLevels 1 ∧
      collapseDistances s'.trace =
        collapseDistances Run.start.trace ++ levelRuns (ladderLevels 1) cs :=
  ladder_runs_fifteen_levels (fun _ => false) 1 (by norm_num)
    (fun k _ hk => round_small k (by omega) _ (by simp))
    (fun n => ⟨n, le_refl n, rfl⟩) Run.start

/-- C7, as the code has it: in every finished run of `main` the trace ends
with `removeNodeArtifacts`, `averageNodePositions`, the restriction inference
`infer`, then the station insertion `insertStations`, then the output, and
none of `infer`, `insertStations`, output occurs earlier; so all collapsing
comes first and `insertStations` never runs before `infer`. -/
theorem main_phase_order (res : Nat → Bool) (d0 : Double) (fuel : Nat) (t : List Call)
    (h : main res d0 fuel = some t) :
    ∃ pre, t = pre ++ [Call.removeNodeArtifacts, Call.averageNodePositions, Call.freezeTrack 1,
        Call.infer, Call.freezeTrack 0, Call.insertStations, Call.output] ∧
      Call.infer ∉ pre ∧ Call.insertStations ∉ pre ∧ Call.output ∉ pre ∧
      ∀ d, Call.collapseShrdSegs d ∈ t → Call.collapseShrdSegs d ∈ pre := by
  simp only [main] at h
  cases h1 : ladderLoop res d0 d0 fuel d0 (mainPrologue res) with
  | none => simp [h1] at h
  | some s =>
    simp only [h1, Option.some.injEq] at h
    obtain ⟨ext, h2, h3⟩ := ladderLoop_trace res d0 d0 fuel d0 _ s h1
    have hpre : ∀ c ∈ (mainPrologue res).trace ++ ext,
        c ≠ Call.infer ∧ c ≠ Call.insertStations ∧ c ≠ Call.output := by
      intro c hc
      rcases List.mem_append.mp hc with hc | hc
      · simp only [mainPrologue, Run.start, Run.call, Run.collapseShrdSegs, List.nil_append,
          List.cons_append, List.mem_cons, List.mem_singleton, List.not_mem_nil, or_false] at hc
        rcases hc with rfl | rfl | rfl | rfl | rfl | rfl | rfl | rfl | rfl | rfl | rfl | rfl <;>
          simp
      · have := h3 c hc
        refine ⟨?_, ?_, ?_⟩ <;> rintro rfl <;> simp [Call.inLadder] at this
    refine ⟨(mainPrologue res).trace ++ ext, ?_, ?_, ?_, ?_, ?_⟩
    · rw [← h, ← h2]
      simp [mainEpilogue, Run.call]
    · exact fun hc => (hpre _ hc).1 rfl
    · exact fun hc => (hpre _ hc).2.1 rfl
    · exact fun hc => (hpre _ hc).2.2 rfl
    · intro d hd
      rw [← h] at hd
      simp only [mainEpilogue, Run.call, List.append_assoc, List.singleton_append, h2] at hd
      simpa using hd

/-- Witness for C7: the run with `cfg.maxAggrDistance = 1` and no collapse. -/
theorem main_phase_order_witness :
    ∃ pre, quietTrace = pre ++ [Call.removeNodeArtifacts, Call.averageNodePositions,
        Call.freezeTrack 1, Call.infer, Call.freezeTrack 0, Call.insertStations, Call.output] ∧
      Call.infer ∉ pre ∧ Call.insertStations ∉ pre ∧ Call.output ∉ pre ∧
      ∀ d, Call.collapseShrdSegs d ∈ quietTrace → Call.collapseShrdSegs d ∈ pre :=
  main_phase_order (fun _ => false) 1 16 quietTrace main_quiet

/-- C7 fails as stated: in the run with `cfg.maxAggrDistance = 1` and no
collapse, `infer` is call number 45 and `insertStations` call number 47, so
`infer` runs before `insertStations`. -/
theorem infer_before_insertStations :
    main (fun _ => false) 1 16 = some quietTrace ∧
      quietTrace.get? 45 = some Call.infer ∧ quietTrace.get? 47 = some Call.insertStations ∧
      quietTrace.indexOf Call.infer < quietTrace.indexOf Call.insertStations :=
  ⟨main_quiet, rfl, rfl, by decide⟩

/-! ## Adjacency: lemmas -/

theorem mem_addEdge_out (a : Nat) (n : Node) (e e' : Edge)
    (h : e' ∈ (n.addEdge a e).adjListOut) :
    e' ∈ n.adjListOut ∨ (e' = e ∧ e.getFrom = a) := by
  unfold Node.addEdge at h
  by_cases h1 : e.getFrom = a <;> by_cases h2 : e.getTo = a <;>
    simp only [h1, h2, if_true, if_false] at h
  · rcases List.mem_insert_iff.mp h with h | h
    · exact Or.inr ⟨h, h1⟩
    · exact Or.inl h
  · rcases List.mem_insert_iff.mp h with h | h
    · exact Or.inr ⟨h, h1⟩
    · exact Or.inl h
  · exact Or.inl h
  · exact Or.inl h

theorem mem_addEdge_in (a : Nat) (n : Node) (e e' : Edge)
    (h : e' ∈ (n.addEdge a e).adjListIn) :
    e' ∈ n.adjListIn ∨ (e' = e ∧ e.getTo = a) := by
  unfold Node.addEdge at h
  by_cases h1 : e.getFrom = a <;> by_cases h2 : e.getTo = a <;>
    simp only [h1, h2, if_true, if_false] at h
  · rcases List.mem_insert_iff.mp h with h | h
    · exact Or.inr ⟨h, h2⟩
    · exact Or.inl h
  · exact Or.inl h
  · rcases List.mem_insert_iff.mp h with h | h
    · exact Or.inr ⟨h, h2⟩
    · exact Or.inl h
  · exact Or.inl h

theorem removeEdge_adjListOut (a : Nat) (n : Node) (e : Edge) :
    (n.removeEdge a e).adjListOut =
      if e.getFrom = a then n.adjListOut.erase e else n.adjListOut := by
  unfold Node.removeEdge
  by_cases h1 : e.getFrom = a <;> by_cases h2 : e.getTo = a <;> simp [h1, h2]

theorem removeEdge_adjListIn (a : Nat) (n : Node) (e : Edge) :
    (n.removeEdge a e).adjListIn =
      if e.getTo = a then n.adjListIn.erase e else n.adjListIn := by
  unfold Node.removeEdge
  by_cases h1 : e.getFrom = a <;> by_cases h2 : e.getTo = a <;> simp [h1, h2]

theorem adjOwned_apply (S : Edge → Prop) (mem : Nat → Node) (c : AdjCall)
    (hc : ∀ e, c.added = some e → S e) (h : AdjOwned S mem) : AdjOwned S (c.apply mem) := by
  intro b
  cases c with
  | addEdge a e =>
    have hS : S e := hc e rfl
    by_cases hb : b = a
    · subst hb
      simp only [AdjCall.apply, if_true]
      constructor
      · intro e' he'
        rcases mem_addEdge_out b _ e e' he' with h1 | ⟨h1, h2⟩
        · exact (h b).1 e' h1
        · subst h1
          exact ⟨h2, hS⟩
      · intro e' he'
        rcases mem_addEdge_in b _ e e' he' with h1 | ⟨h1, h2⟩
        · exact (h b).2 e' h1
        · subst h1
          exact ⟨h2, hS⟩
    · simp only [AdjCall.apply, hb, if_false]
      exact h b
  | removeEdge a e =>
    by_cases hb : b = a
    · subst hb
      simp only [AdjCall.apply, if_true, removeEdge_adjListOut, removeEdge_adjListIn]
      constructor
      · intro e' he'
        refine (h b).1 e' ?_
        by_cases h1 : e.getFrom = b
        · simp only [h1, if_true] at he'
          exact List.mem_of_mem_erase he'
        · simpa only [h1, if_false] using he'
      · intro e' he'
        refine (h b).2 e' ?_
        by_cases h1 : e.getTo = b
        · simp only [h1, if_true] at he'
          exact List.mem_of_mem_erase he'
        · simpa only [h1, if_false] using he'
    · simp only [AdjCall.apply, hb, if_false]
      exact h b

theorem adjOwned_foldl (S : Edge → Prop) (calls : List AdjCall) :
    ∀ mem : Nat → Node, (∀ e ∈ addedEdges calls, S e) → AdjOwned S mem →
      AdjOwned S (calls.foldl AdjCall.apply mem) := by
  induction calls with
  | nil => intro mem _ h; exact h
  | cons c cs ih =>
    intro mem hS h
    simp only [List.foldl_cons]
    apply ih
    · intro e he
      apply hS
      simp only [addedEdges, List.filterMap_cons] at he ⊢
      cases hc : c.added with
      | none => simpa [hc] using he
      | some e0 =>
        simp only [hc, List.mem_cons]
        exact Or.inr he
    · apply adjOwned_apply S mem c _ h
      intro e he
      apply hS
      simp [addedEdges, List.filterMap_cons, he]

/-! ## Adjacency: the claims -/

/-- C9: `getEdge(other)` yields a value if and only if the node has an
out-edge whose to-node is `other` or an in-edge whose from-node is `other`.
A value it yields is such an edge, and it is an in-edge only when no out-edge
leads to `other`.  When no such edge exists control reaches the end of the
function and no value is yielded. -/
theorem getEdge_defined_iff (n : Node) (other : Nat) :
    ((n.getEdge other).isSome = true ↔
        ((∃ e ∈ n.adjListOut, e.getTo = other) ∨ (∃ e ∈ n.adjListIn, e.getFrom = other))) ∧
      (∀ e, n.getEdge other = some e →
        (e ∈ n.adjListOut ∧ e.getTo = other) ∨
          ((∀ e' ∈ n.adjListOut, e'.getTo ≠ other) ∧ e ∈ n.adjListIn ∧ e.getFrom = other)) ∧
      (n.getEdge other = none ↔
        ((∀ e ∈ n.adjListOut, e.getTo ≠ other) ∧ (∀ e ∈ n.adjListIn, e.getFrom ≠ other))) := by
  unfold Node.getEdge
  cases h1 : n.adjListOut.find? (fun eP => decide (eP.getTo = other)) with
  | some eP =>
    have hm := List.mem_of_find?_eq_some h1
    have hp : eP.getTo = other := by simpa using List.find?_some h1
    refine ⟨?_, ?_, ?_⟩
    · simp only [Option.isSome_some, true_iff]
      exact Or.inl ⟨eP, hm, hp⟩
    · intro e he
      simp only [Option.some.injEq] at he
      subst he
      exact Or.inl ⟨hm, hp⟩
    · constructor
      · intro h
        simp at h
      · intro h
        exact absurd hp (h.1 eP hm)
  | none =>
    have hno : ∀ e ∈ n.adjListOut, e.getTo ≠ other := by
      simpa using List.find?_eq_none.mp h1
    cases h2 : n.adjListIn.find? (fun eP => decide (eP.getFrom = other)) with
    | some eP =>
      have hm := List.mem_of_find?_eq_some h2
      have hp : eP.getFrom = other := by simpa using List.find?_some h2
      refine ⟨?_, ?_, ?_⟩
      · simp only [Option.isSome_some, true_iff]
        exact Or.inr ⟨eP, hm, hp⟩
      · intro e he
        simp only [Option.some.injEq] at he
        subst he
        exact Or.inr ⟨hno, hm, hp⟩
      · constructor
        · intro h
          simp at h
        · intro h
          exact absurd hp (h.2 eP hm)
    | none =>
      have hni : ∀ e ∈ n.adjListIn, e.getFrom ≠ other := by
        simpa using List.find?_eq_none.mp h2
      refine ⟨?_, ?_, ?_⟩
      · simp only [Option.isSome_none, Bool.false_eq_true, false_iff, not_or, not_exists, not_and]
        exact ⟨hno, hni⟩
      · intro e he
        simp at he
      · simp only [true_iff]
        exact ⟨hno, hni⟩

/-- C10 fails on the code: for a front whose edge has no trip of the route
(`getTripsForRouteUnder` reports not-found), `getTripOccPosUnder` reaches
the end of its body without a `return`, so no point is yielded. -/
theorem getTripOccPosUnder_not_found :
    NodeFront.getTripOccPosUnder noTripEnv { n := 1, edge := ⟨7, 0, 1⟩ } 3
      [(⟨7, 0, 1⟩, [0])] none none = none := by
  simp [NodeFront.getTripOccPosUnder, noTripEnv, mapFind]

/-! ## The node destructor: lemmas -/

theorem erase_eq_filter_not_mem (l : List Edge) (e : Edge) (h : l.Nodup) :
    l.erase e = l.filter (fun x => decide (x ∉ [e])) := by
  rw [h.erase_eq_filter]
  apply List.filter_congr
  intro x _
  by_cases hx : x = e <;> simp [hx]

theorem filter_not_mem_of_not_mem (l : List Edge) (e : Edge) (h : e ∉ l) :
    l = l.filter (fun x => decide (x ∉ [e])) := by
  symm
  rw [List.filter_eq_self]
  intro x hx
  simp only [List.mem_singleton, decide_not, Bool.not_eq_true', decide_eq_false_iff_not]
  rintro rfl
  exact h hx

theorem erase_erase_eq_filter (l : List Edge) (e : Edge) (h : l.Nodup) :
    (l.erase e).erase e = l.filter (fun x => decide (x ∉ [e])) := by
  rw [List.erase_of_not_mem (fun hm => (h.mem_erase_iff.mp hm).1 rfl)]
  exact erase_eq_filter_not_mem l e h

/-- One iteration of the first destructor loop, on an edge that starts at the
node and ends at a live node. -/
theorem dtorOutStep_purged (self : Nat) (h : Heap) (e : Edge) (ho : h.Owned)
    (hself : self ∈ h.live) (hf : e.getFrom = self) (ht : e.getTo ∈ h.live)
    (hd : e ∉ h.deleted) :
    ∃ h1, Heap.dtorOutStep self h e = some h1 ∧ Heap.Purged [e] h h1 := by
  simp only [Heap.dtorOutStep, hd, if_false, hf, if_true, Heap.removeEdge, Heap.store, ht,
    not_false_eq_true, and_self, Heap.deleteEdge]
  refine ⟨_, rfl, rfl, rfl, ?_⟩
  intro a ha
  obtain ⟨n1, n2, o1, o2⟩ := ho a ha
  by_cases h1 : a = e.getTo <;> by_cases h2 : a = self
  · subst h2
    have h3 : e.getTo = a := h1.symm
    simp only [h3, hf, if_true, removeEdge_adjListOut, removeEdge_adjListIn]
    exact ⟨erase_erase_eq_filter _ e n1, erase_eq_filter_not_mem _ e n2⟩
  · have h3 : ¬ e.getTo = self := fun hh => h2 (h1.trans hh)
    have h4 : ¬ e.getFrom = e.getTo := fun hh => h3 (hh.symm.trans hf)
    subst h1
    simp only [h3, h4, if_true, if_false, removeEdge_adjListOut, removeEdge_adjListIn]
    refine ⟨filter_not_mem_of_not_mem _ e ?_, erase_eq_filter_not_mem _ e n2⟩
    exact fun hm => h4 (o1 e hm)
  · subst h2
    simp only [h1, if_true, if_false]
    refine ⟨erase_eq_filter_not_mem _ e n1, filter_not_mem_of_not_mem _ e ?_⟩
    exact fun hm => h1 (o2 e hm).symm
  · simp only [h1, h2, if_false]
    refine ⟨filter_not_mem_of_not_mem _ e ?_, filter_not_mem_of_not_mem _ e ?_⟩
    · exact fun hm => h2 ((o1 e hm).symm.trans hf)
    · exact fun hm => h1 (o2 e hm).symm

/-- One iteration of the second destructor loop, on an edge that ends at the
node and starts at a live node. -/
theorem dtorInStep_purged (self : Nat) (h : Heap) (e : Edge) (ho : h.Owned)
    (hself : self ∈ h.live) (ht : e.getTo = self) (hf : e.getFrom ∈ h.live)
    (hd : e ∉ h.deleted) :
    ∃ h1, Heap.dtorInStep self h e = some h1 ∧ Heap.Purged [e] h h1 := by
  simp only [Heap.dtorInStep, hd, if_false, ht, if_true, Heap.removeEdge, Heap.store, hf,
    not_false_eq_true, and_self, Heap.deleteEdge]
  refine ⟨_, rfl, rfl, rfl, ?_⟩
  intro a ha
  obtain ⟨n1, n2, o1, o2⟩ := ho a ha
  by_cases h1 : a = e.getFrom <;> by_cases h2 : a = self
  · subst h2
    have h3 : e.getFrom = a := h1.symm
    simp only [h3, ht, if_true, removeEdge_adjListOut, removeEdge_adjListIn]
    exact ⟨erase_eq_filter_not_mem _ e n1, erase_erase_eq_filter _ e n2⟩
  · have h3 : ¬ e.getFrom = self := fun hh => h2 (h1.trans hh)
    have h4 : ¬ e.getTo = e.getFrom := fun hh => h3 (hh.symm.trans ht)
    subst h1
    simp only [h3, h4, if_true, if_false, removeEdge_adjListOut, removeEdge_adjListIn]
    refine ⟨erase_eq_filter_not_mem _ e n1, filter_not_mem_of_not_mem _ e ?_⟩
    exact fun hm => h4 (o2 e hm)
  · subst h2
    simp only [h1, if_true, if_false]
    refine ⟨filter_not_mem_of_not_mem _ e ?_, erase_eq_filter_not_mem _ e n2⟩
    exact fun hm => h1 (o1 e hm).symm
  · simp only [h1, h2, if_false]
    refine ⟨filter_not_mem_of_not_mem _ e ?_, filter_not_mem_of_not_mem _ e ?_⟩
    · exact fun hm => h1 (o1 e hm).symm
    · exact fun hm => h2 ((o2 e hm).symm.trans ht)

theorem purged_owned (L : List Edge) (h h1 : Heap) (hp : Heap.Purged L h h1) (ho : h.Owned) :
    h1.Owned := by
  obtain ⟨hl, -, hm⟩ := hp
  intro a ha
  rw [hl] at ha
  obtain ⟨n1, n2, o1, o2⟩ := ho a ha
  obtain ⟨e1, e2⟩ := hm a ha
  rw [e1, e2]
  exact ⟨n1.filter _, n2.filter _, fun e he => o1 e (List.mem_of_mem_filter he),
    fun e he => o2 e (List.mem_of_mem_filter he)⟩

theorem purged_nil (h : Heap) : Heap.Purged [] h h := by
  refine ⟨rfl, by simp, ?_⟩
  intro a _
  simp

theorem purged_trans (L1 L2 : List Edge) (h h1 h2 : Heap) (p1 : Heap.Purged L1 h h1)
    (p2 : Heap.Purged L2 h1 h2) : Heap.Purged (L1 ++ L2) h h2 := by
  obtain ⟨l1, d1, m1⟩ := p1
  obtain ⟨l2, d2, m2⟩ := p2
  refine ⟨l2.trans l1, by rw [d2, d1, List.append_assoc], ?_⟩
  intro a ha
  obtain ⟨a1, a2⟩ := m1 a ha
  obtain ⟨b1, b2⟩ := m2 a (by rw [l1]; exact ha)
  rw [b1, b2, a1, a2, List.filter_filter, List.filter_filter]
  constructor <;>
  · apply List.filter_congr
    intro x _
    by_cases x1 : x ∈ L1 <;> by_cases x2 : x ∈ L2 <;> simp [x1, x2]

/-- A destructor loop over the edges `L`, each of which the loop body purges. -/
theorem forEach_purged (step : Heap → Edge → Option Heap) (lv : List Nat) (Q : Edge → Prop)
    (hstep : ∀ h e, h.Owned → h.live = lv → Q e → e ∉ h.deleted →
      ∃ h1, step h e = some h1 ∧ Heap.Purged [e] h h1) (L : List Edge) :
    ∀ h : Heap, h.Owned → h.live = lv → L.Nodup → (∀ e ∈ L, Q e ∧ e ∉ h.deleted) →
      ∃ h1, Heap.forEach step L h = some h1 ∧ Heap.Purged L h h1 := by
  induction L with
  | nil =>
    intro h _ _ _ _
    exact ⟨h, rfl, purged_nil h⟩
  | cons e L ih =>
    intro h ho hl hn hq
    obtain ⟨h1, s1, p1⟩ := hstep h e ho hl (hq e (List.mem_cons_self _ _)).1
      (hq e (List.mem_cons_self _ _)).2
    have hn' := List.nodup_cons.mp hn
    obtain ⟨h2, s2, p2⟩ := ih h1 (purged_owned _ h h1 p1 ho) (p1.1.trans hl) hn'.2 (by
      intro x hx
      refine ⟨(hq x (List.mem_cons_of_mem _ hx)).1, ?_⟩
      rw [p1.2.1]
      simp only [List.mem_append, List.mem_singleton, not_or]
      refine ⟨(hq x (List.mem_cons_of_mem _ hx)).2, ?_⟩
      rintro rfl
      exact hn'.1 hx)
    refine ⟨h2, ?_, ?_⟩
    · simp only [Heap.forEach, s1, s2]
    · exact purged_trans [e] L h h1 h2 p1 p2

theorem consistent_owned (h : Heap) (hc : h.Consistent) : h.Owned := by
  intro a ha
  obtain ⟨n1, n2, o1, o2⟩ := hc.2 a ha
  exact ⟨n1, n2, fun e he => (o1 e he).2.1, fun e he => (o2 e he).2.1⟩

/-- The destructor of a live node of a consistent heap: it deletes the
incident edges of the node, each once, erases them from the adjacency sets of
the other nodes, and leaves a consistent heap. -/
theorem destroyNode_consistent (h : Heap) (self : Nat) (hc : h.Consistent)
    (hself : self ∈ h.live) :
    ∃ h1 D, h.destroyNode self = some h1 ∧ h1.live = h.live.erase self ∧ h1.Consistent ∧
      h1.deleted = h.deleted ++ D ∧ D.Nodup ∧
      (∀ e, e ∈ D ↔ (e ∈ (h.mem self).adjListOut ∨ e ∈ (h.mem self).adjListIn)) ∧
      ∀ a ∈ h1.live,
        (h1.mem a).adjListOut = (h.mem a).adjListOut.filter (fun e => decide (e ∉ D)) ∧
        (h1.mem a).adjListIn = (h.mem a).adjListIn.filter (fun e => decide (e ∉ D)) := by
  have ho := consistent_owned h hc
  obtain ⟨sn1, sn2, so1, so2⟩ := hc.2 self hself
  obtain ⟨h1, s1, p1⟩ := forEach_purged (Heap.dtorOutStep self) h.live
    (fun e => e.getFrom = self ∧ e.getTo ∈ h.live)
    (fun g e go gl q gd =>
      dtorOutStep_purged self g e go (by rw [gl]; exact hself) q.1 (by rw [gl]; exact q.2) gd)
    (h.mem self).adjListOut h ho rfl sn1
    (fun e he => ⟨⟨(so1 e he).2.1, (so1 e he).2.2.1⟩, (so1 e he).1⟩)
  have ho1 := purged_owned _ h h1 p1 ho
  have hin1 : (h1.mem self).adjListIn =
      (h.mem self).adjListIn.filter (fun e => decide (e ∉ (h.mem self).adjListOut)) :=
    (p1.2.2 self hself).2
  have hL2 : ∀ e ∈ (h1.mem self).adjListIn,
      e ∈ (h.mem self).adjListIn ∧ e ∉ (h.mem self).adjListOut := by
    intro e he
    rw [hin1, List.mem_filter] at he
    exact ⟨he.1, by simpa using he.2⟩
  obtain ⟨h2, s2, p2⟩ := forEach_purged (Heap.dtorInStep self) h.live
    (fun e => e.getTo = self ∧ e.getFrom ∈ h.live)
    (fun g e go gl q gd =>
      dtorInStep_purged self g e go (by rw [gl]; exact hself) q.1 (by rw [gl]; exact q.2) gd)
    (h1.mem self).adjListIn h1 ho1 p1.1 (ho1 self (by rw [p1.1]; exact hself)).2.1
    (fun e he => by
      obtain ⟨m1, m2⟩ := hL2 e he
      refine ⟨⟨(so2 e m1).2.1, (so2 e m1).2.2.1⟩, ?_⟩
      rw [p1.2.1]
      simp only [List.mem_append, not_or]
      exact ⟨(so2 e m1).1, m2⟩)
  have p := purged_trans _ _ h h1 h2 p1 p2
  have hDmem : ∀ e, e ∈ (h.mem self).adjListOut ++ (h1.mem self).adjListIn ↔
      (e ∈ (h.mem self).adjListOut ∨ e ∈ (h.mem self).adjListIn) := by
    intro e
    rw [List.mem_append]
    constructor
    · rintro (he | he)
      · exact Or.inl he
      · exact Or.inr (hL2 e he).1
    · rintro (he | he)
      · exact Or.inl he
      · by_cases ho : e ∈ (h.mem self).adjListOut
        · exact Or.inl ho
        · refine Or.inr ?_
          rw [hin1, List.mem_filter]
          exact ⟨he, by simpa using ho⟩
  refine ⟨{ h2 with live := h2.live.erase self },
    (h.mem self).adjListOut ++ (h1.mem self).adjListIn, ?_, ?_, ?_, p.2.1, ?_, hDmem, ?_⟩
  · simp only [Heap.destroyNode, hself, if_true, s1, s2]
  · simp only [p.1]
  · have hlive : ∀ a, a ∈ h2.live.erase self ↔ (a ∈ h.live ∧ a ≠ self) := by
      intro a
      rw [p.1, hc.1.mem_erase_iff]
      tauto
    refine ⟨by rw [p.1]; exact hc.1.erase self, ?_⟩
    intro a ha
    obtain ⟨ha1, ha2⟩ := (hlive a).mp ha
    obtain ⟨n1, n2, o1, o2⟩ := hc.2 a ha1
    obtain ⟨e1, e2⟩ := p.2.2 a ha1
    simp only []
    rw [e1, e2]
    refine ⟨n1.filter _, n2.filter _, ?_, ?_⟩
    · intro e he
      rw [List.mem_filter] at he
      have hD : e ∉ (h.mem self).adjListOut ++ (h1.mem self).adjListIn := by simpa using he.2
      obtain ⟨d1, d2, d3, d4⟩ := o1 e he.1
      have hto : e.getTo ≠ self := by
        intro hh
        apply hD
        rw [hDmem]
        right
        rw [← hh]
        exact d4
      refine ⟨?_, d2, (hlive _).mpr ⟨d3, hto⟩, ?_⟩
      · rw [p.2.1]
        simp only [List.mem_append, not_or]
        exact ⟨d1, by simpa using hD⟩
      · rw [(p.2.2 e.getTo d3).2, List.mem_filter]
        exact ⟨d4, he.2⟩
    · intro e he
      rw [List.mem_filter] at he
      have hD : e ∉ (h.mem self).adjListOut ++ (h1.mem self).adjListIn := by simpa using he.2
      obtain ⟨d1, d2, d3, d4⟩ := o2 e he.1
      have hfrom : e.getFrom ≠ self := by
        intro hh
        apply hD
        rw [hDmem]
        left
        rw [← hh]
        exact d4
      refine ⟨?_, d2, (hlive _).mpr ⟨d3, hfrom⟩, ?_⟩
      · rw [p.2.1]
        simp only [List.mem_append, not_or]
        exact ⟨d1, by simpa using hD⟩
      · rw [(p.2.2 e.getFrom d3).1, List.mem_filter]
        exact ⟨d4, he.2⟩
  · rw [List.nodup_append]
    refine ⟨sn1, (ho1 self (by rw [p1.1]; exact hself)).2.1, ?_⟩
    intro e he1 he2
    exact (hL2 e he2).2 he1
  · intro a ha
    have ha1 : a ∈ h.live := by
      have : a ∈ h2.live.erase self := ha
      rw [p.1] at this
      exact List.mem_of_mem_erase this
    exact p.2.2 a ha1

/-- Destroying all nodes of a consistent heap, in any order. -/
theorem destroyAll_consistent (order : List Nat) :
    ∀ h : Heap, h.Consistent → order.Perm h.live →
      ∃ h1 D, Heap.destroyAll order h = some h1 ∧ h1.live = [] ∧
        h1.deleted = h.deleted ++ D ∧ D.Nodup ∧ ∀ e, e ∈ D ↔ h.HasEdge e := by
  induction order with
  | nil =>
    intro h _ hp
    have hl : h.live = [] := List.Perm.eq_nil hp.symm
    refine ⟨h, [], rfl, hl, by simp, List.nodup_nil, ?_⟩
    intro e
    simp [Heap.HasEdge, hl]
  | cons a rest ih =>
    intro h hc hp
    have ha : a ∈ h.live := hp.mem_iff.mp (List.mem_cons_self _ _)
    obtain ⟨h1, D1, s1, l1, c1, d1, n1, m1, f1⟩ := destroyNode_consistent h a hc ha
    have hp1 : rest.Perm h1.live := by
      rw [l1]
      have := hp.erase a
      rwa [List.erase_cons_head] at this
    obtain ⟨h2, D2, s2, l2, d2, n2, m2⟩ := ih h1 c1 hp1
    have hedge : ∀ e, h1.HasEdge e ↔ (h.HasEdge e ∧ e ∉ D1) := by
      intro e
      constructor
      · rintro ⟨b, hb, he⟩
        have hb' : b ∈ h.live := by
          rw [l1] at hb
          exact List.mem_of_mem_erase hb
        obtain ⟨e1, e2⟩ := f1 b hb
        rw [e1, e2, List.mem_filter, List.mem_filter] at he
        rcases he with he | he
        · exact ⟨⟨b, hb', Or.inl he.1⟩, by simpa using he.2⟩
        · exact ⟨⟨b, hb', Or.inr he.1⟩, by simpa using he.2⟩
      · rintro ⟨⟨b, hb, he⟩, hD⟩
        have hba : b ≠ a := by
          rintro rfl
          exact hD ((m1 e).mpr he)
        have hb1 : b ∈ h1.live := by
          rw [l1, hc.1.mem_erase_iff]
          exact ⟨hba, hb⟩
        obtain ⟨e1, e2⟩ := f1 b hb1
        refine ⟨b, hb1, ?_⟩
        rw [e1, e2, List.mem_filter, List.mem_filter]
        rcases he with he | he
        · exact Or.inl ⟨he, by simpa using hD⟩
        · exact Or.inr ⟨he, by simpa using hD⟩
    refine ⟨h2, D1 ++ D2, ?_, l2, ?_, ?_, ?_⟩
    · simp only [Heap.destroyAll, s1, s2]
    · rw [d2, d1, List.append_assoc]
    · rw [List.nodup_append]
      refine ⟨n1, n2, ?_⟩
      intro e he1 he2
      exact ((hedge e).mp ((m2 e).mp he2)).2 he1
    · intro e
      rw [List.mem_append, m2, hedge]
      constructor
      · rintro (he | he)
        · exact ⟨a, ha, (m1 e).mp he⟩
        · exact he.1
      · intro he
        by_cases hD : e ∈ D1
        · exact Or.inl hD
        · exact Or.inr ⟨he, hD⟩

/-! ## The node destructor: the claim -/

/-- C6: for every heap with consistent adjacency (each edge in the out-set
of its from-node and in the in-set of its to-node, self-loops and parallel
edges included) and every order of its nodes, running the node destructor on
all nodes in that order succeeds without touching a destroyed node or a
deleted edge, and calls `delete` on every edge of the graph exactly once and
on nothing else. -/
theorem destroyAll_deletes_each_edge_once (h : Heap) (order : List Nat) (hc : h.Consistent)
    (hp : order.Perm h.live) :
    ∃ h1 D, Heap.destroyAll order h = some h1 ∧ h1.live = [] ∧
      h1.deleted = h.deleted ++ D ∧ D.Nodup ∧ (∀ e, e ∈ D ↔ h.HasEdge e) ∧
      ∀ e, h.HasEdge e → h1.deleted.count e = 1 := by
  obtain ⟨h1, D, s, l, d, n, m⟩ := destroyAll_consistent order h hc hp
  refine ⟨h1, D, s, l, d, n, m, ?_⟩
  intro e he
  have hnot : e ∉ h.deleted := by
    obtain ⟨a, ha, hm⟩ := he
    rcases hm with hm | hm
    · exact ((hc.2 a ha).2.2.1 e hm).1
    · exact ((hc.2 a ha).2.2.2 e hm).1
  rw [d, List.count_append, List.count_eq_zero_of_not_mem hnot,
    List.count_eq_one_of_mem n ((m e).mpr he)]

/-- Witness for C6: the sample graph with a self-loop and a pair of parallel
edges, destroyed in the order 1, 2, 0. -/
theorem destroyAll_deletes_each_edge_once_witness :
    ∃ h1 D, Heap.destroyAll [1, 2, 0] sampleHeap = some h1 ∧ h1.live = [] ∧
      h1.deleted = sampleHeap.deleted ++ D ∧ D.Nodup ∧ (∀ e, e ∈ D ↔ sampleHeap.HasEdge e) ∧
      ∀ e, sampleHeap.HasEdge e → h1.deleted.count e = 1 :=
  destroyAll_deletes_each_edge_once sampleHeap [1, 2, 0] (by decide) (by decide)

/-! ## The inner loop of the driver: the claim -/

/-- The inner loop on results that report a collapse `c` times and then
none: with more than `c` evaluations of the condition allowed it ends after
the calls of `levelCalls d c`, with fewer it has not ended. -/
theorem collapseLoop_first_false (res : Nat → Bool) (d : Double) (c : Nat) :
    ∀ (s : Run) (fuel : Nat), (∀ j, j < c → res (s.collapses + j) = true) →
      res (s.collapses + c) = false →
      collapseLoop res fuel d s =
        if c < fuel then
          some { trace := s.trace ++ levelCalls d c, collapses := s.collapses + c + 1 }
        else none := by
  induction c with
  | zero =>
    intro s fuel _ hfalse
    simp only [Nat.add_zero] at hfalse
    cases fuel with
    | zero => simp [collapseLoop]
    | succ fuel => simp [collapseLoop, Run.collapseShrdSegs, hfalse, levelCalls]
  | succ c ih =>
    intro s fuel htrue hfalse
    have h0 : res s.collapses = true := by simpa using htrue 0 (Nat.succ_pos c)
    cases fuel with
    | zero => simp [collapseLoop]
    | succ fuel =>
      simp only [collapseLoop, Run.collapseShrdSegs, h0, if_true, Run.call]
      rw [ih _ fuel
        (by
          intro j hj
          have := htrue (j + 1) (Nat.succ_lt_succ hj)
          simpa [Nat.add_assoc, Nat.add_comm 1 j] using this)
        (by simpa [Nat.add_assoc, Nat.add_comm 1 c] using hfalse)]
      by_cases hc : c < fuel
      · simp [hc, levelCalls, Nat.add_assoc, Nat.add_comm 1 c]
      · simp [hc]

/-- C11: at a level with distance `d`, for every sequence of results of
`collapseShrdSegs` whose first `c` results are true and whose next result is
false, the calls of the level are those of `levelCalls d c`: each of the `c`
calls `collapseShrdSegs(d)` that returned true is followed by
`removeNodeArtifacts`, `removeEdgeArtifacts` and a further
`collapseShrdSegs(d)`, and the level ends with the call that returned false,
with no artifact removal after it.  The loop ends as soon as more than `c`
evaluations of its condition are allowed and not before. -/
theorem collapseLoop_level_calls (res : Nat → Bool) (d : Double) (s : Run) (c fuel : Nat)
    (htrue : ∀ j, j < c → res (s.collapses + j) = true)
    (hfalse : res (s.collapses + c) = false) :
    collapseLoop res fuel d s =
      if c < fuel then
        some { trace := s.trace ++ levelCalls d c, collapses := s.collapses + c + 1 }
      else none :=
  collapseLoop_first_false res d c s fuel htrue hfalse

/-- Witness for C11: two passes that collapse and a third that does not, at
distance 3. -/
theorem collapseLoop_level_calls_witness :
    collapseLoop (fun k => decide (k < 2)) 5 3 Run.start =
      if 2 < 5 then
        some { trace := Run.start.trace ++ levelCalls 3 2,
               collapses := Run.start.collapses + 2 + 1 }
      else none :=
  collapseLoop_level_calls (fun k => decide (k < 2)) 3 Run.start 2 5
    (by intro j hj; simpa [Run.start] using hj) (by simp [Run.start])

/-! ## Route-connection exceptions: the frame of a call -/

/-- C14: `addRouteConnException(r, a, b)` changes the answer of `connOccurs`
for the triples `(r, a, b)` and `(r, b, a)` only: on every node state, for
every triple `(r', a', b')` different from both, `connOccurs(r', a', b')` is
the same before and after the call.  Consequently, on a node reached from a
fresh one by the calls `calls`, `connOccurs(r, a, b)` is false exactly when
`addRouteConnException(r, a, b)` or `addRouteConnException(r, b, a)` is among
the calls. -/
theorem addRouteConnException_frame (n : Node) (calls : List ExcCall) (r r' : Route)
    (a b a' b' : Edge) (h1 : (r', a', b') ≠ (r, a, b)) (h2 : (r', a', b') ≠ (r, b, a)) :
    (n.addRouteConnException r a b).connOccurs r' a' b' = n.connOccurs r' a' b' ∧
      ((Node.fresh.addRouteConnExceptions calls).connOccurs r a b = false ↔
        ((r, a, b) ∈ calls ∨ (r, b, a) ∈ calls)) := by
  constructor
  · rw [Bool.eq_iff_iff, connOccurs_eq_true_iff, connOccurs_eq_true_iff, excStored_add]
    apply not_congr
    constructor
    · rintro (h | ⟨hr, ⟨ha, hb⟩ | ⟨ha, hb⟩⟩)
      · exact h
      · exact absurd (by rw [hr, ha, hb]) h1
      · exact absurd (by rw [hr, ha, hb]) h2
    · exact fun h => Or.inl h
  · rw [← Bool.not_eq_true, connOccurs_eq_true_iff, not_not, excStored_calls]
    constructor
    · rintro (h | ⟨c, hc, hr, ⟨ha, hb⟩ | ⟨ha, hb⟩⟩)
      · exact absurd h (not_excStored_fresh r a b)
      · left
        have : c = (r, a, b) := by
          rw [← hr, ← ha, ← hb]
        rw [← this]
        exact hc
      · right
        have : c = (r, b, a) := by
          rw [← hr, ← ha, ← hb]
        rw [← this]
        exact hc
    · rintro (h | h)
      · exact Or.inr ⟨(r, a, b), h, rfl, Or.inl ⟨rfl, rfl⟩⟩
      · exact Or.inr ⟨(r, b, a), h, rfl, Or.inr ⟨rfl, rfl⟩⟩

/-- Witness for C14: an exception for route 1 between edges 10 and 11 leaves
the answer for route 1 between edges 10 and 12 as it was, on a node that
already has an exception for route 2. -/
theorem addRouteConnException_frame_witness :
    ((Node.fresh.addRouteConnException 2 ⟨10, 0, 1⟩ ⟨12, 0, 3⟩).addRouteConnException 1
          ⟨10, 0, 1⟩ ⟨11, 0, 2⟩).connOccurs 1 ⟨10, 0, 1⟩ ⟨12, 0, 3⟩ =
        (Node.fresh.addRouteConnException 2 ⟨10, 0, 1⟩ ⟨12, 0, 3⟩).connOccurs 1 ⟨10, 0, 1⟩
          ⟨12, 0, 3⟩ ∧
      ((Node.fresh.addRouteConnExceptions
            [(2, ⟨10, 0, 1⟩, ⟨12, 0, 3⟩), (1, ⟨11, 0, 2⟩, ⟨10, 0, 1⟩)]).connOccurs 1
          ⟨10, 0, 1⟩ ⟨11, 0, 2⟩ = false ↔
        (((1 : Route), (⟨10, 0, 1⟩ : Edge), (⟨11, 0, 2⟩ : Edge)) ∈
            [(2, ⟨10, 0, 1⟩, ⟨12, 0, 3⟩), (1, ⟨11, 0, 2⟩, ⟨10, 0, 1⟩)] ∨
          ((1 : Route), (⟨11, 0, 2⟩ : Edge), (⟨10, 0, 1⟩ : Edge)) ∈
            [(2, ⟨10, 0, 1⟩, ⟨12, 0, 3⟩), (1, ⟨11, 0, 2⟩, ⟨10, 0, 1⟩)])) :=
  addRouteConnException_frame (Node.fresh.addRouteConnException 2 ⟨10, 0, 1⟩ ⟨12, 0, 3⟩)
    [(2, ⟨10, 0, 1⟩, ⟨12, 0, 3⟩), (1, ⟨11, 0, 2⟩, ⟨10, 0, 1⟩)] 1 1
    ⟨10, 0, 1⟩ ⟨11, 0, 2⟩ ⟨10, 0, 1⟩ ⟨12, 0, 3⟩ (by decide) (by decide)

/-! ## Termination of the ladder loop -/

theorem double_zero : (0 : Double) = Double.fin 0 := by
  show Double.round ((0 : ℕ) : ℚ) = Double.fin 0
  simp [Double.round]

/-- With `cfg.maxAggrDistance = 0` the ladder loop does not end, whatever
`collapseShrdSegs` reports: `d` stays `0` and `0 <= 0 * 15` stays true. -/
theorem ladderLoop_zero_none (res : Nat → Bool) (fuel : Nat) :
    ∀ s : Run, ladderLoop res 0 0 fuel 0 s = none := by
  have hB : Double.fin 0 * 15 = Double.fin 0 := by
    rw [double_numeral 15 (by norm_num), Double.mul_fin]
    simp [Double.round]
  have hadd : Double.fin 0 + Double.fin 0 = Double.fin 0 := by
    rw [Double.add_fin]
    simp [Double.round]
  have hle : Double.fin 0 ≤ Double.fin 0 * 15 := by
    rw [hB, Double.fin_le_fin]
  rw [double_zero]
  induction fuel with
  | zero => intro s; rfl
  | succ fuel ih =>
    intro s
    simp only [ladderLoop, if_pos hle, hadd]
    cases collapseLoop res fuel (Double.fin 0) (s.call (Call.logDistance (Double.fin 0))) with
    | none => rfl
    | some s1 => exact ih s1

/-- Rounding a positive number gives an infinity or a non-negative value. -/
theorem roundPos_nonneg (x : ℚ) :
    Double.roundPos x = Double.posInf ∨ ∃ r, 0 ≤ r ∧ Double.roundPos x = Double.fin r := by
  unfold Double.roundPos
  simp only []
  split_ifs with h
  · right
    exact ⟨_, mul_nonneg (Nat.cast_nonneg _) (quantum_pos x).le, rfl⟩
  · left
    rfl

/-- When `cfg.maxAggrDistance * 15` overflows to infinity the ladder loop
does not end: `d` is never above the bound. -/
theorem ladderLoop_overflow_none (res : Nat → Bool) (q : ℚ) (hq : 0 < q)
    (hB : Double.fin q * 15 = Double.posInf) (fuel : Nat) :
    ∀ (d : Double) (s : Run), (d = Double.posInf ∨ ∃ x, 0 ≤ x ∧ d = Double.fin x) →
      ladderLoop res (Double.fin q) (Double.fin q) fuel d s = none := by
  induction fuel with
  | zero => intro d s _; rfl
  | succ fuel ih =>
    intro d s hd
    have hle : d ≤ Double.fin q * 15 := by
      rw [hB]
      rcases hd with rfl | ⟨x, -, rfl⟩ <;> rfl
    have hnext : Double.add d (Double.fin q) = Double.posInf ∨
        ∃ x, 0 ≤ x ∧ Double.add d (Double.fin q) = Double.fin x := by
      rcases hd with rfl | ⟨x, hx, rfl⟩
      · exact Or.inl rfl
      · have hpos : 0 < x + q := by linarith
        have : Double.add (Double.fin x) (Double.fin q) = Double.roundPos (x + q) := by
          show Double.round (x + q) = _
          unfold Double.round
          rw [if_neg (ne_of_gt hpos), if_pos hpos]
        rw [this]
        exact roundPos_nonneg (x + q)
    simp only [ladderLoop, if_pos hle]
    cases collapseLoop res fuel d (s.call (Call.logDistance d)) with
    | none => rfl
    | some s1 => exact ih _ s1 hnext

/-- The negative of a double is a double. -/
theorem isDouble_neg (q : ℚ) (hq : q < 0) (hd : (Double.fin q).IsDouble) :
    (Double.fin (-q)).IsDouble := by
  have h : Double.round q = Double.fin q := hd
  unfold Double.round at h
  rw [if_neg (ne_of_lt hq), if_neg (not_lt.mpr hq.le)] at h
  show Double.round (-q) = Double.fin (-q)
  unfold Double.round
  rw [if_neg (by linarith : ¬ (-q = 0)), if_pos (by linarith : 0 < -q)]
  cases hr : Double.roundPos (-q) with
  | fin r =>
    rw [hr] at h
    simp only [Double.neg, Double.fin.injEq] at h
    rw [← h, neg_neg]
  | posInf => rw [hr] at h; simp [Double.neg] at h
  | negInf => rw [hr] at h; simp [Double.neg] at h
  | nan => rw [hr] at h; simp [Double.neg] at h

theorem inv_pow_1075_le (q : ℚ) (h : (1 : ℚ) / 2 ^ (1074 : ℕ) ≤ q) :
    (1 : ℚ) / 2 ^ (1075 : ℕ) ≤ q / 2 := by
  have p : (2 : ℚ) ^ (1075 : ℕ) = 2 * 2 ^ (1074 : ℕ) := by norm_num
  have e : (1 : ℚ) / 2 ^ (1075 : ℕ) = 1 / 2 ^ (1074 : ℕ) / 2 := by
    rw [p, div_div, mul_comm]
  rw [e]
  linarith

theorem div_pow_53_le (x : ℚ) (hx : 0 ≤ x) : x / 2 ^ (53 : ℕ) ≤ x / 64 := by
  apply div_le_div_of_nonneg_left hx (by norm_num)
  norm_num

/-- For a negative `cfg.maxAggrDistance` the condition of the ladder loop is
false at once. -/
theorem ladderLoop_neg (res : Nat → Bool) (q : ℚ) (hq : q < 0) (hd : (Double.fin q).IsDouble)
    (s : Run) : ladderLoop res (Double.fin q) (Double.fin q) 1 (Double.fin q) s = some s := by
  apply ladderLoop_stop
  have hlow := isDouble_lower (-q) (by linarith) (isDouble_neg q hq hd)
  have heps := inv_pow_1075_le (-q) hlow
  have hprod : Double.fin q * 15 = Double.neg (Double.roundPos (-(q * 15))) := by
    rw [double_numeral 15 (by norm_num), Double.mul_fin]
    unfold Double.round
    have hneg : (q * ((15 : ℕ) : ℚ)) < 0 := by
      push_cast
      linarith
    rw [if_neg (ne_of_lt hneg), if_neg (not_lt.mpr hneg.le)]
    push_cast
    rfl
  rw [hprod]
  rcases roundPos_cases (-(q * 15)) (by linarith) with h | ⟨r, h, hr1, -⟩
  · rw [h]
    intro hle
    exact Bool.noConfusion hle
  · rw [h]
    have h53 := div_pow_53_le (-(q * 15)) (by linarith)
    show ¬ (Double.fin q ≤ Double.fin (-r))
    rw [Double.fin_le_fin]
    intro hle
    linarith

/-- For a positive `cfg.maxAggrDistance` with a finite bound, each pass of
the ladder loop raises `d` by at least an eighth of the step, so the loop
ends when every inner loop ends. -/
theorem ladderLoop_pos_terminates (res : Nat → Bool) (q b : ℚ) (hq : 0 < q)
    (hlow : (1 : ℚ) / 2 ^ (1074 : ℕ) ≤ q) (hB : Double.fin q * 15 = Double.fin b)
    (hb : b ≤ 16 * q) (hres : ∀ n, ∃ m, n ≤ m ∧ res m = false) (n : ℕ) :
    ∀ (x : ℚ) (s : Run), q ≤ x → b < x + (n : ℚ) * (q / 8) →
      ∃ fuel s', ladderLoop res (Double.fin q) (Double.fin q) fuel (Double.fin x) s =
        some s' := by
  induction n with
  | zero =>
    intro x s _ hx
    refine ⟨1, s, ladderLoop_stop _ _ _ _ _ _ ?_⟩
    rw [hB, Double.fin_le_fin]
    simp only [Nat.cast_zero, zero_mul, add_zero] at hx
    exact not_le.mpr hx
  | succ n ih =>
    intro x s hqx hx
    by_cases hxb : x ≤ b
    · have hle : Double.fin x ≤ Double.fin q * 15 := by
        rw [hB, Double.fin_le_fin]
        exact hxb
      obtain ⟨m, hm1, hm2⟩ := hres (s.call (Call.logDistance (Double.fin x))).collapses
      obtain ⟨f1, c, hc⟩ := collapseLoop_of_false res (Double.fin x)
        (m - (s.call (Call.logDistance (Double.fin x))).collapses)
        (s.call (Call.logDistance (Double.fin x))) (by rw [Nat.add_sub_cancel' hm1]; exact hm2)
      obtain ⟨s1, hc⟩ : ∃ s1, collapseLoop res f1 (Double.fin x)
          (s.call (Call.logDistance (Double.fin x))) = some s1 := ⟨_, hc⟩
      have hpos : 0 < x + q := by linarith
      have hsum : Double.fin x + Double.fin q = Double.roundPos (x + q) := by
        rw [Double.add_fin]
        unfold Double.round
        rw [if_neg (ne_of_gt hpos), if_pos hpos]
      rcases roundPos_cases (x + q) hpos with hinf | ⟨r, hr, hr1, -⟩
      · refine ⟨f1 + 1 + 1, s1, ?_⟩
        simp only [ladderLoop, if_pos hle]
        rw [collapseLoop_mono res f1 _ _ _ hc (f1 + 1) (Nat.le_succ _)]
        simp only []
        rw [hsum, hinf]
        apply ladderLoop_stop
        rw [hB]
        intro h
        exact Bool.noConfusion h
      · have heps := inv_pow_1075_le q hlow
        have h53 := div_pow_53_le (x + q) hpos.le
        have hprog : x + q / 8 ≤ r := by linarith
        obtain ⟨f2, s', hrun⟩ := ih r s1 (by linarith) (by
          push_cast at hx
          linarith)
        refine ⟨max f1 f2 + 1, s', ?_⟩
        simp only [ladderLoop, if_pos hle]
        rw [collapseLoop_mono res f1 _ _ _ hc (max f1 f2) (le_max_left _ _)]
        simp only []
        rw [hsum, hr]
        exact ladderLoop_mono res _ _ f2 _ _ _ hrun (max f1 f2) (le_max_right _ _)
    · refine ⟨1, s, ladderLoop_stop _ _ _ _ _ _ ?_⟩
      rw [hB, Double.fin_le_fin]
      exact hxb

/-- The double nearest to `0.1` is a double. -/
theorem tenth_isDouble : (Double.fin tenth).IsDouble := by
  show Double.round tenth = Double.fin tenth
  apply round_eval tenth tenth (-4) 7205759403792794
  · norm_num [tenth]
  · norm_num [tenth]
  · norm_num
  · norm_num [tenth]
  · norm_num [tenth]
  · intro _; norm_num
  · norm_num [tenth]
  · norm_num [tenth]

/-- The product `1e308 * 15` overflows. -/
theorem hugeDistance_bound : Double.fin hugeDistance * 15 = Double.posInf := by
  rw [double_numeral 15 (by norm_num), Double.mul_fin]
  have hbig : (2 : ℚ) ^ (1024 : ℕ) ≤ hugeDistance * ((15 : ℕ) : ℚ) := by
    have e : (2 : ℚ) ^ (1024 : ℕ) = 2 ^ (53 : ℕ) * 2 ^ (971 : ℕ) := by
      rw [← pow_add]
    have h971 : (0 : ℚ) ≤ 2 ^ (971 : ℕ) := (pow_pos (by norm_num) 971).le
    have hc : (2 : ℚ) ^ (53 : ℕ) ≤ 5010420900022432 * 15 := by norm_num
    have := mul_le_mul_of_nonneg_right hc h971
    rw [e]
    unfold hugeDistance
    push_cast
    linarith
  have hpos : 0 < hugeDistance * ((15 : ℕ) : ℚ) := lt_of_lt_of_le (pow_pos (by norm_num) 1024) hbig
  unfold Double.round
  rw [if_neg (ne_of_gt hpos), if_pos hpos]
  exact roundPos_overflow _ hbig

/-- The double nearest to `1e308` is `hugeDistance`. -/
theorem hugeDistance_nearest : Double.round (10 ^ (308 : ℕ)) = Double.fin hugeDistance := by
  have hpos : (0 : ℚ) < 10 ^ (308 : ℕ) := pow_pos (by norm_num) 308
  have h := roundPos_eval (10 ^ (308 : ℕ)) 1023 5010420900022432
    (by norm_num) (by norm_num) (by norm_num)
    (roundHalfEven_eq _ _ (by positivity) (by norm_num) (by norm_num)
      (by rintro (h | h) <;> norm_num at h))
    (by norm_num)
  unfold Double.round
  rw [if_neg (ne_of_gt hpos), if_pos hpos, h]
  norm_num [hugeDistance]

/-- C15 fails as stated, for two values of `cfg.maxAggrDistance`, with a
`collapseShrdSegs` that never reports a collapse (every inner loop ends
after one call).  With `0` the step is `0` and `0 <= 0 * 15` stays true.
With `1e308` the bound `1e308 * 15` is infinite and `d <= inf` stays true.
In both runs the ladder loop does not end for any number of evaluations of
its condition. -/
theorem ladderLoop_zero_diverges :
    (¬ ∃ fuel s, ladderLoop (fun _ => false) 0 0 fuel 0 Run.start = some s) ∧
      Double.round (10 ^ (308 : ℕ)) = Double.fin hugeDistance ∧
      ¬ ∃ fuel s, ladderLoop (fun _ => false) (Double.fin hugeDistance)
        (Double.fin hugeDistance) fuel (Double.fin hugeDistance) Run.start = some s := by
  refine ⟨?_, hugeDistance_nearest, ?_⟩
  · rintro ⟨fuel, s, h⟩
    rw [ladderLoop_zero_none] at h
    exact Option.noConfusion h
  · rintro ⟨fuel, s, h⟩
    have hpos : (0 : ℚ) < hugeDistance := by
      unfold hugeDistance
      exact mul_pos (by norm_num) (pow_pos (by norm_num) 971)
    rw [ladderLoop_overflow_none (fun _ => false) hugeDistance hpos hugeDistance_bound fuel _ _
      (Or.inr ⟨hugeDistance, hpos.le, rfl⟩)] at h
    exact Option.noConfusion h

/-- C15, as the code has it: for every finite double `d0 ≠ 0` for which
`d0 * 15` does not overflow to infinity, and every sequence of results of
`collapseShrdSegs` on which each inner loop ends, the ladder loop ends. -/
theorem ladderLoop_terminates_of_ne_zero (res : Nat → Bool) (d0 : ℚ) (hd0 : d0 ≠ 0)
    (hd : (Double.fin d0).IsDouble) (hB : Double.fin d0 * 15 ≠ Double.posInf)
    (hres : ∀ n, ∃ m, n ≤ m ∧ res m = false) (s : Run) :
    ∃ fuel s', ladderLoop res (Double.fin d0) (Double.fin d0) fuel (Double.fin d0) s =
      some s' := by
  rcases lt_or_gt_of_ne hd0 with hneg | hpos
  · exact ⟨1, s, ladderLoop_neg res d0 hneg hd s⟩
  · have hlow := isDouble_lower d0 hpos hd
    have hprod : Double.fin d0 * 15 = Double.roundPos (d0 * 15) := by
      rw [double_numeral 15 (by norm_num), Double.mul_fin]
      unfold Double.round
      have hp : 0 < d0 * ((15 : ℕ) : ℚ) := by
        push_cast
        linarith
      rw [if_neg (ne_of_gt hp), if_pos hp]
      push_cast
      rfl
    rcases roundPos_cases (d0 * 15) (by linarith) with hinf | ⟨b, hb, -, hb2⟩
    · exact absurd (hprod.trans hinf) hB
    · have heps := inv_pow_1075_le d0 hlow
      have h53 := div_pow_53_le (d0 * 15) (by linarith)
      exact ladderLoop_pos_terminates res d0 b hpos hlow (hprod.trans hb) (by linarith) hres 128
        d0 s (le_refl _) (by push_cast; linarith)

/-- Witness for C15: `d0 = 0.1`, where the loop body runs 14 times, with a
`collapseShrdSegs` that never reports a collapse. -/
theorem ladderLoop_terminates_of_ne_zero_witness :
    ∃ fuel s', ladderLoop (fun _ => false) (Double.fin tenth) (Double.fin tenth) fuel
      (Double.fin tenth) Run.start = some s' :=
  ladderLoop_terminates_of_ne_zero (fun _ => false) tenth (by norm_num [tenth]) tenth_isDouble
    (by rw [tenth_bound]; exact fun h => Double.noConfusion h)
    (fun n => ⟨n, le_refl n, rfl⟩) Run.start

/-! ## Node fronts and inner geometries: the claims -/

/-- C12: when the two trip positions `p` (on the front) and `pp` (on the
front of the partner) are defined, `getInnerBezier` renders the cubic with
the control points `(p, p + d·slopeA, pp + d·slopeB, pp)`, where `d` is half
the distance between `p` and `pp` and `slopeA`, `slopeB` are the tangents of
the edge of the front and of the edge of the partner's front at the end
incident to this node (between the arclengths `length - 5` and `length` when
the to-node of the edge is this node, between `5` and `0` otherwise);
distance, slope, length and rendering are given functions and the
arithmetic is exact. -/
theorem getInnerBezier_control_points (env : FrontEnv) (geo : GeoEnv) (self : Nat)
    (cf : Configuration) (nf : NodeFront) (tripOcc : RouteOccurance) (partner : Partner)
    (e : Option Edge) (order : Option Ordering) (prec : ℚ) (p pp : Point)
    (hp : nf.getTripOccPosUnder env tripOcc.route cf e order = some p)
    (hpp : partner.front.getTripOccPosUnder env partner.route cf e order = some pp) :
    Node.getInnerBezier env geo self cf nf tripOcc partner e order prec =
      some (geo.render (innerBezierCurve geo self nf partner p pp) prec) := by
  simp only [Node.getInnerBezier, hp, hpp, innerBezierCurve, Point.shift, endTangent]
  by_cases h1 : nf.edge.getTo = self <;> by_cases h2 : partner.front.edge.getTo = self <;>
    simp [h1, h2, mul_comm]

/-- Witness for C12: at node 1, the front of edge 7 (from node 0 to node 1)
and, as partner, the front of edge 8 (from node 1 to node 2). -/
theorem getInnerBezier_control_points_witness :
    Node.getInnerBezier sampleFrontEnv sampleGeoEnv 1
        [(⟨7, 0, 1⟩, [0]), (⟨8, 1, 2⟩, [0])] { n := 1, edge := ⟨7, 0, 1⟩ }
        { route := 3, direction := 0 }
        { front := { n := 1, edge := ⟨8, 1, 2⟩ }, edge := ⟨8, 1, 2⟩, route := 3 }
        none none 1 =
      some (sampleGeoEnv.render
        (innerBezierCurve sampleGeoEnv 1 { n := 1, edge := ⟨7, 0, 1⟩ }
          { front := { n := 1, edge := ⟨8, 1, 2⟩ }, edge := ⟨8, 1, 2⟩, route := 3 }
          { x := 0, y := 0 } { x := 6, y := 8 }) 1) :=
  getInnerBezier_control_points sampleFrontEnv sampleGeoEnv 1
    [(⟨7, 0, 1⟩, [0]), (⟨8, 1, 2⟩, [0])] { n := 1, edge := ⟨7, 0, 1⟩ }
    { route := 3, direction := 0 }
    { front := { n := 1, edge := ⟨8, 1, 2⟩ }, edge := ⟨8, 1, 2⟩, route := 3 }
    none none 1 { x := 0, y := 0 } { x := 6, y := 8 } rfl rfl

/-- C13 fails on the code: on a node with two consecutive fronts of the same
edge, `removeEdge` erases the first one and then increments its index past
the second, which has moved into the place of the first, so that
`getNodeFrontFor` still finds a front of the edge.  With a front of another
edge between the two, both are erased and the other front is kept. -/
theorem removeEdge_skips_front_after_erased :
    (((Node.fresh.addMainDir { n := 0, edge := ⟨7, 0, 1⟩ }).addMainDir
          { n := 0, edge := ⟨7, 0, 1⟩ }).removeEdge 0 ⟨7, 0, 1⟩).getNodeFrontFor ⟨7, 0, 1⟩ =
        some { n := 0, edge := ⟨7, 0, 1⟩ } ∧
      ((((Node.fresh.addMainDir { n := 0, edge := ⟨7, 0, 1⟩ }).addMainDir
            { n := 0, edge := ⟨8, 0, 2⟩ }).addMainDir
            { n := 0, edge := ⟨7, 0, 1⟩ }).removeEdge 0 ⟨7, 0, 1⟩).mainDirs =
        [{ n := 0, edge := ⟨8, 0, 2⟩ }] := by
  constructor <;> decide

end Loom
